import Mathlib

/-!
Verification of the FileOrgAI directory-reorganization planner and applier
(`main.py`): the path scanner `get_relative_paths`, the permission gate
`check_directory_permissions`, the change applier `apply_changes` and the
change logger `create_change_log`, shallowly embedded in Lean 4.

Paths relative to the organized root directory are modelled as lists of
path segments (`Path`); `renderRel` renders them the way `os.path.relpath`
does (the root itself renders as `"."`).  The filesystem is a flat list of
nodes (path, is-directory flag, file content).  Interactive `input()` calls
are modelled by answer oracles, and OS-level failures of executed
filesystem operations by an error oracle.
-/

namespace FileOrg

/-- A path relative to the scanned/organized root, as a list of segments.
`[]` is the root itself. -/
abbrev Path := List String

/-- ASCII lowercasing of one character (what Python's `str.lower` does on
the ASCII names compared here). -/
def charLower (c : Char) : Char :=
  if 'A' ≤ c ∧ c ≤ 'Z' then Char.ofNat (c.toNat + 32) else c

/-- `s.lower()` (ASCII). -/
def strLower (s : String) : String := ⟨s.data.map charLower⟩

/-- `s.startswith(".")`. -/
def strStartsWithDot (s : String) : Bool :=
  match s.data with
  | [] => false
  | c :: _ => c == '.'

/-- Render a relative path the way `os.path.relpath(p, root)` does:
the root is `"."`, otherwise segments joined with `/`. -/
def renderRel (p : Path) : String :=
  if p = [] then "." else String.intercalate "/" p

/-- `os.path.join(dir, p)` for a relative segment path `p`. -/
def joinS (dir : String) (p : Path) : String :=
  dir ++ String.join (p.map (fun s => "/" ++ s))

/-- `os.path.basename` of a nonempty relative path. -/
def lastSeg (p : Path) : String := (p.getLast?).getD ""

/-! ### Flat filesystem model (for the change applier) -/

/-- One filesystem node: its path relative to the organized root, whether
it is a directory, and (for files) its content. -/
structure Node where
  path : Path
  isDir : Bool
  content : String
deriving Repr, DecidableEq

/-- A filesystem under the organized root: the list of all its nodes. -/
abbrev FS := List Node

/-- `os.listdir(root)`: names of the top-level entries. -/
def fsListdir (fs : FS) : List String :=
  fs.filterMap (fun n => match n.path with
    | [x] => some x
    | _ => none)

/-- `os.path.isdir(root/p)`. -/
def fsIsDir (fs : FS) (p : Path) : Bool :=
  fs.any (fun n => n.path == p && n.isDir)

/-- Ensure a single directory node exists. -/
def fsEnsureDir (fs : FS) (p : Path) : FS :=
  if fs.any (fun n => n.path == p) then fs else fs ++ [⟨p, true, ""⟩]

/-- Successful `os.makedirs(root/p, exist_ok=True)`: every nonempty prefix
of `p` is ensured to exist as a directory. -/
def fsMakeDirs (fs : FS) (p : Path) : FS :=
  ((List.range p.length).map (fun i => p.take (i + 1))).foldl fsEnsureDir fs

/-- Successful `shutil.move(root/src, root/dst)`: if `dst` is an existing
directory the source is moved inside it (under its base name), otherwise
the source tree is renamed to `dst`.  Every node under `src` is
re-rooted. -/
def fsMove (fs : FS) (src dst : Path) : FS :=
  let realDst := if fsIsDir fs dst then dst ++ [lastSeg src] else dst
  fs.map (fun n =>
    if src.isPrefixOf n.path then ⟨realDst ++ n.path.drop src.length, n.isDir, n.content⟩
    else n)

/-- `open(root/p, "w").write(c)`: overwrite the file if present, create it
otherwise. -/
def fsWriteFile (fs : FS) (p : Path) (c : String) : FS :=
  if fs.any (fun n => n.path == p && !n.isDir) then
    fs.map (fun n => if n.path == p && !n.isDir then ⟨p, false, c⟩ else n)
  else fs ++ [⟨p, false, c⟩]

/-- `open(root/p, "a").write(c)`: append to the file, creating it if
missing. -/
def fsAppendFile (fs : FS) (p : Path) (c : String) : FS :=
  if fs.any (fun n => n.path == p && !n.isDir) then
    fs.map (fun n =>
      if n.path == p && !n.isDir then ⟨p, false, n.content ++ c⟩ else n)
  else fs ++ [⟨p, false, c⟩]

/-! ### Path scanner (`get_relative_paths`) -/

/-- A directory tree entry, as `os.walk` sees it. -/
inductive Entry where
  | file (name : String)
  | dir (name : String) (children : List Entry)

/-- The immediate subdirectory names of a directory (`dirs` in
`os.walk`). -/
def dirNamesOf (es : List Entry) : List String :=
  es.filterMap (fun e => match e with
    | .dir n _ => some n
    | .file _ => none)

/-- The direct file names of a directory (`files` in `os.walk`). -/
def fileNamesOf (es : List Entry) : List String :=
  es.filterMap (fun e => match e with
    | .file n => some n
    | .dir _ _ => none)

/-- All immediate entry names of a directory. -/
def namesOf (es : List Entry) : List String :=
  es.map (fun e => match e with
    | .file n => n
    | .dir n _ => n)

/-- The fixed build/VCS/package marker file names (compared against
lowercased file names). -/
def markerFiles : List String :=
  ["requirements.txt", "setup.py", "package.json", "cargo.toml", "makefile",
   "cmakelists.txt", ".git", ".gitignore", "readme.md", "pipfile",
   "poetry.lock", "build.gradle", "pom.xml", "gemfile", "composer.json",
   "package-lock.json", "yarn.lock", "go.mod", "dockerfile",
   "docker-compose.yml", ".travis.yml", "jenkinsfile", ".gitlab-ci.yml",
   "tox.ini", "pytest.ini", ".eslintrc", "tsconfig.json"]

/-- The fixed OS-reserved file names excluded from `eligible_paths`
(compared against lowercased file names). -/
def reservedNames : List String :=
  ["$recycle.bin", "desktop.ini", "thumbs.db", "ntuser.dat", "ntuser.ini",
   "ntuser.pol", "usrclass.dat", "iconcache.db", "pagefile.sys",
   "hiberfil.sys", "swapfile.sys", "bootmgr", "bootnxt", "bootfont.bin",
   "autorun.inf", "system volume information"]

/-- `is_project` in `get_relative_paths`: some direct file's lowercase name
is a marker, or there is an immediate subdirectory named `src`. -/
def isProjectDir (dirs files : List String) : Bool :=
  files.any (fun f => markerFiles.contains (strLower f)) || dirs.contains "src"

/-- The wording of a folder prompt. -/
inductive PromptKind where
  | project
  | large
deriving Repr, DecidableEq

/-- Whether (and how) a visited directory is prompted: project-like
directories are always prompted with the "Programming project" wording
(taking priority over size); otherwise a directory with more than 30
direct files that is not the scan root is prompted with the "Large folder"
wording. -/
def promptOf (isRoot : Bool) (dirs files : List String) : Option PromptKind :=
  if isProjectDir dirs files then some .project
  else if files.length > 30 && !isRoot then some .large
  else none

/-- A file passes the per-file filter: not hidden and not an OS-reserved
name (case-insensitively). -/
def fileAllowed (f : String) : Bool :=
  !strStartsWithDot f && !(reservedNames.contains (strLower f))

/-- The direct files of a non-pruned directory that are collected, as paths
relative to the root. -/
def collectFiles (rel : Path) (files : List String) : List Path :=
  (files.filter fileAllowed).map (fun f => rel ++ [f])

/-- The outcome of a scan: eligible file paths, excluded folder paths
(the global `large_folders`), and the folder prompts that were shown
(kind, relative path, direct file count). -/
structure ScanOut where
  elig : List Path
  excl : List Path
  prompts : List (PromptKind × Path × Nat)
deriving Repr, DecidableEq

mutual

/-- Scan of one directory (the `os.walk` loop body at `root`): decide the
prompt; on a rejected prompt record the folder in the excluded list and
prune the subtree (`dirs[:] = []` plus `continue`); otherwise collect its
direct files and scan its subdirectories. -/
def scanDir (a : Path → Bool) (isRoot : Bool) (rel : Path)
    (entries : List Entry) : ScanOut :=
  let dirs := dirNamesOf entries
  let files := fileNamesOf entries
  match promptOf isRoot dirs files with
  | some k =>
    if a rel then
      let sub := scanSubs a rel entries
      ⟨collectFiles rel files ++ sub.elig, sub.excl,
        (k, rel, files.length) :: sub.prompts⟩
    else
      ⟨[], [rel], [(k, rel, files.length)]⟩
  | none =>
    let sub := scanSubs a rel entries
    ⟨collectFiles rel files ++ sub.elig, sub.excl, sub.prompts⟩
termination_by (sizeOf entries, 1)

/-- Scan of the subdirectories of a directory, in entry order. -/
def scanSubs (a : Path → Bool) (rel : Path) (entries : List Entry) : ScanOut :=
  match entries with
  | [] => ⟨[], [], []⟩
  | .file _ :: rest => scanSubs a rel rest
  | .dir d children :: rest =>
    let r := scanDir a false (rel ++ [d]) children
    let rs := scanSubs a rel rest
    ⟨r.elig ++ rs.elig, r.excl ++ rs.excl, r.prompts ++ rs.prompts⟩
termination_by (sizeOf entries, 0)

end

/-- `get_relative_paths(directory)` on a root whose entries are `entries`,
with the operator's per-folder answers given by `a` (`true` is the literal
answer `y`): the returned relative path strings together with the global
`large_folders` list it populates. -/
def get_relative_paths (a : Path → Bool) (entries : List Entry) :
    List String × List String :=
  let out := scanDir a true [] entries
  (out.elig.map renderRel, out.excl.map renderRel)

mutual

/-- Well-formedness of one entry: its subtree has distinct names at each
level. -/
def wfEntry : Entry → Bool
  | .file _ => true
  | .dir _ children => wfEntries children
termination_by e => (sizeOf e, 0)

/-- Well-formedness of a real directory listing: entry names at each level
are distinct, recursively. -/
def wfEntries (es : List Entry) : Bool :=
  decide ((namesOf es).Nodup) && wfAll es
termination_by (sizeOf es, 1)

/-- Every entry of the list is well-formed. -/
def wfAll : List Entry → Bool
  | [] => true
  | e :: rest => wfEntry e && wfAll rest
termination_by es => (sizeOf es, 0)

end

/-! ### Permission gate (`check_directory_permissions`) and `main` flow -/

/-- What `os.path.exists` and the three `os.access` checks report for the
operator-supplied path, plus whether the path actually is a directory
(which the gate never consults). -/
structure DirStat where
  pathExists : Bool
  readable : Bool
  writable : Bool
  executable : Bool
  isDirectory : Bool
deriving Repr, DecidableEq

/-- `check_directory_permissions(directory)`: false when the path does not
exist; otherwise true exactly when read, write and execute access are all
present. -/
def check_directory_permissions (d : DirStat) : Bool :=
  if !d.pathExists then false
  else d.readable && d.writable && d.executable

/-- The successive steps of `main`. -/
inductive MainStep where
  | checkPerms
  | scan
  | requestPlan
  | present
  | writeLog
  | applyStep
deriving Repr, DecidableEq

/-- The steps `main` performs: it returns right after the permission gate
when the gate fails; otherwise it scans, requests a plan, presents it, and
on confirmation writes the change log and applies the changes. -/
def mainSteps (d : DirStat) (confirmed : Bool) : List MainStep :=
  if check_directory_permissions d = false then [.checkPerms]
  else [.checkPerms, .scan, .requestPlan, .present] ++
    (if confirmed then [.writeLog, .applyStep] else [])

/-! ### Change applier (`apply_changes`) and logger (`create_change_log`) -/

/-- One `(original, new)` pair of the plan's `FilePath` list. -/
structure FileMove where
  original : Path
  new : Path
deriving Repr, DecidableEq

/-- The reorganization plan returned by the classifier
(`prompts.NewStructure`). -/
structure NewStructure where
  new_folders : List String
  FilePath : List FileMove
deriving Repr, DecidableEq

/-- An observable event of a run: plain log lines, error log lines, the
log line of an `execute_or_log` action, an append to the persistent change
log, or an `input()` prompt together with the operator's (affirmative?)
answer. -/
inductive Event where
  | info (msg : String)
  | errorLog (msg : String)
  | actionLog (msg : String)
  | changeLogAppend (msg : String)
  | ask (question : String) (answer : Bool)
deriving Repr, DecidableEq

/-- A primitive mutating filesystem operation performed by an
`execute_or_log` action. -/
inductive FSOp where
  | makeDirs (p : Path)
  | move (src dst : Path)
deriving Repr, DecidableEq

/-- The effect of a successful primitive operation. -/
def applyOp (fs : FS) : FSOp → FS
  | .makeDirs p => fsMakeDirs fs p
  | .move s d => fsMove fs s d

/-- The run's environment: the `DRY_RUN` flag, an oracle telling which
executed operations raise an `OSError` (with its text), and the operator's
scripted answers to the `input()` prompts of `apply_changes`, by prompt
index (`true` is the literal answer `y`). -/
structure ApplyCtx where
  dryRun : Bool
  oracle : FSOp → Option String
  answers : Nat → Bool

/-- The mutable state threaded through `apply_changes`: the filesystem and
the number of prompts asked so far. -/
structure St where
  fs : FS
  nAsk : Nat
deriving Repr, DecidableEq

/-- Run the operations of one `execute_or_log` action in order, stopping
at the first one that raises (returning the exception text). -/
def runOps (oracle : FSOp → Option String) : FS → List FSOp → FS × Option String
  | fs, [] => (fs, none)
  | fs, op :: rest =>
    match oracle op with
    | some e => (fs, some e)
    | none => runOps oracle (applyOp fs op) rest

/-- `execute_or_log(action, log_message)`: in dry-run mode only log the
intended action (prefixed `[DRY RUN] Would `) and do nothing; otherwise
log the message and then execute the action, which may raise. -/
def execOrLog (ctx : ApplyCtx) (st : St) (ops : List FSOp) (msg : String) :
    St × List Event × Option String :=
  if ctx.dryRun then
    (st, [.actionLog ("[DRY RUN] Would " ++ msg)], none)
  else
    let r := runOps ctx.oracle st.fs ops
    ({st with fs := r.1}, [.actionLog msg], r.2)

/-- The fixed name of the persistent change log file. -/
def changeLogName : String := "reorganization_change_log.txt"

/-- `append_to_log(message)`: append `"\n" + message + "\n"` to the change
log file under the organized directory. -/
def appendToLog (st : St) (msg : String) : St × List Event :=
  ({st with fs := fsAppendFile st.fs [changeLogName] ("\n" ++ msg ++ "\n")},
   [.changeLogAppend msg])

/-- One `input(question)` call inside `apply_changes`, consuming the next
scripted answer. -/
def askUser (ctx : ApplyCtx) (st : St) (q : String) : St × List Event × Bool :=
  let ans := ctx.answers st.nAsk
  ({st with nAsk := st.nAsk + 1}, [.ask q ans], ans)

/-- Phase 1: create the deprecated folder. -/
def phase1 (ctx : ApplyCtx) (dir : String) (st : St) :
    St × List Event × Option String :=
  execOrLog ctx st [.makeDirs ["deprecated"]]
    ("create deprecated folder: " ++ joinS dir ["deprecated"])

/-- Phase 2: move each excluded (large/project) folder to the top level
under its base name, skipping folders already at the top level. -/
def phase2 (ctx : ApplyCtx) (dir : String) :
    List Path → St → St × List Event × Option String
  | [], st => (st, [], none)
  | folder :: rest, st =>
    if joinS dir folder == joinS dir [lastSeg folder] then
      phase2 ctx dir rest st
    else
      match execOrLog ctx st [.move folder [lastSeg folder]]
          ("move large folder: " ++ joinS dir folder ++ " -> " ++
            joinS dir [lastSeg folder]) with
      | (st', δ, some e) => (st', δ, some e)
      | (st', δ, none) =>
        let r := phase2 ctx dir rest st'
        (r.1, δ ++ r.2.1, r.2.2)

/-- Phase 3: create every folder of `plan.new_folders`. -/
def phase3 (ctx : ApplyCtx) (dir : String) :
    List String → St → St × List Event × Option String
  | [], st => (st, [], none)
  | folder :: rest, st =>
    match execOrLog ctx st [.makeDirs [folder]]
        ("create folder: " ++ joinS dir [folder]) with
    | (st', δ, some e) => (st', δ, some e)
    | (st', δ, none) =>
      let r := phase3 ctx dir rest st'
      (r.1, δ ++ r.2.1, r.2.2)

/-- The per-file skip prompt of phase 4. -/
def skipQuestion : String :=
  "Error occurred. Do you want to skip this file and continue? (y/n): "

/-- The `move/rename file` log message of phase 4
(`f"move/rename file: {src} -> {dst}"`). -/
def moveMsg (dir : String) (m : FileMove) : String :=
  "move/rename file: " ++ joinS dir m.original ++ " -> " ++ joinS dir m.new

/-- The phase-4 error message for a failed move
(`f"Error moving file: {src} -> {dst}. Error: {e}"`). -/
def moveErrMsg (dir : String) (m : FileMove) (e : String) : String :=
  "Error moving file: " ++ joinS dir m.original ++ " -> " ++
    joinS dir m.new ++ ". Error: " ++ e

/-- Phase 4: move/rename each file of the plan, ensuring the destination's
parent directory first.  A failure is logged, appended to the change log,
and the operator is asked whether to skip; a non-affirmative answer makes
the whole function return (third component `true`). -/
def phase4 (ctx : ApplyCtx) (dir : String) :
    List FileMove → St → St × List Event × Bool
  | [], st => (st, [], false)
  | m :: rest, st =>
    match execOrLog ctx st [.makeDirs m.new.dropLast, .move m.original m.new]
        (moveMsg dir m) with
    | (st', δ, none) =>
      let r := phase4 ctx dir rest st'
      (r.1, δ ++ r.2.1, r.2.2)
    | (st', δ, some e) =>
      let em := moveErrMsg dir m e
      let lg := appendToLog st' ("Error Log:\n" ++ em)
      let ak := askUser ctx lg.1 skipQuestion
      if ak.2.2 then
        let r := phase4 ctx dir rest ak.1
        (r.1, δ ++ [.errorLog em] ++ lg.2 ++ ak.2.1 ++ r.2.1, r.2.2)
      else
        (ak.1,
         δ ++ [.errorLog em] ++ lg.2 ++ ak.2.1 ++
           [.info "User chose to exit. Stopping the process."],
         true)

/-- The log message of a phase-5 folder archival
(`f"move old folder to deprecated: {src} -> {dst}"`). -/
def archiveMsg (dir : String) (n : String) : String :=
  "move old folder to deprecated: " ++ joinS dir [n] ++ " -> " ++
    joinS dir ["deprecated", n]

/-- The loop of phase 5 over the computed `old_folders`: a name is moved
into the deprecated folder when it currently is a directory and is not the
deprecated container itself. -/
def phase5loop (ctx : ApplyCtx) (dir : String) :
    List String → St → St × List Event × Option String
  | [], st => (st, [], none)
  | n :: rest, st =>
    if fsIsDir st.fs [n] && !(n == "deprecated") then
      match execOrLog ctx st [.move [n] ["deprecated", n]]
          (archiveMsg dir n) with
      | (st', δ, some e) => (st', δ, some e)
      | (st', δ, none) =>
        let r := phase5loop ctx dir rest st'
        (r.1, δ ++ r.2.1, r.2.2)
    else phase5loop ctx dir rest st

/-- Phase 5: archive the stale top-level folders — every current top-level
name that is neither a planned new folder nor an excluded folder's base
name is a candidate, and the loop moves the candidates that are
directories other than the deprecated container. -/
def phase5 (ctx : ApplyCtx) (dir : String) (org : NewStructure)
    (large_folders : List Path) (st : St) : St × List Event × Option String :=
  let oldFolders := (fsListdir st.fs).filter (fun n =>
    !(org.new_folders.contains n) &&
      !((large_folders.map lastSeg).contains n))
  phase5loop ctx dir oldFolders st

/-- The outer-handler continue prompt of `apply_changes`. -/
def continueQuestion : String :=
  "An error occurred. Do you want to continue with the remaining changes? (y/n): "

/-- The `Dry run:` banner `apply_changes` logs first. -/
def hdEvents (ctx : ApplyCtx) : List Event :=
  [.info ("Dry run: " ++ (if ctx.dryRun then "True" else "False"))]

/-- The completion log line at the end of `apply_changes`. -/
def tlEvents (ctx : ApplyCtx) : List Event :=
  [.info (if ctx.dryRun then "Dry run completed. No changes were made."
          else "All changes applied successfully.")]

/-- The body of `apply_changes`'s outer `try`: phases 1–5 in order.
Returns the state, the events, the `OSError` that escaped to the outer
handler (if any), and whether phase 4 returned early. -/
def applyPhases (ctx : ApplyCtx) (dir : String) (org : NewStructure)
    (large_folders : List Path) (st : St) :
    St × List Event × Option String × Bool :=
  match phase1 ctx dir st with
  | (st1, δ1, some e) => (st1, δ1, some e, false)
  | (st1, δ1, none) =>
    match phase2 ctx dir large_folders st1 with
    | (st2, δ2, some e) => (st2, δ1 ++ δ2, some e, false)
    | (st2, δ2, none) =>
      match phase3 ctx dir org.new_folders st2 with
      | (st3, δ3, some e) => (st3, δ1 ++ δ2 ++ δ3, some e, false)
      | (st3, δ3, none) =>
        match phase4 ctx dir org.FilePath st3 with
        | (st4, δ4, true) => (st4, δ1 ++ δ2 ++ δ3 ++ δ4, none, true)
        | (st4, δ4, false) =>
          match phase5 ctx dir org large_folders st4 with
          | (st5, δ5, r) => (st5, δ1 ++ δ2 ++ δ3 ++ δ4 ++ δ5, r, false)

/-- `apply_changes(directory, organization, large_folders)` on an initial
filesystem `fs0`: runs the five phases under the outer `OSError` handler
(which asks the operator first and appends the error to the change log
after the answer, in both branches), then logs the completion message
unless the function returned early. -/
def apply_changes (ctx : ApplyCtx) (dir : String) (org : NewStructure)
    (large_folders : List Path) (fs0 : FS) : St × List Event :=
  let st0 : St := ⟨fs0, 0⟩
  let hd := hdEvents ctx
  let tl := tlEvents ctx
  match applyPhases ctx dir org large_folders st0 with
  | (st, δ, none, true) => (st, hd ++ δ)
  | (st, δ, none, false) => (st, hd ++ δ ++ tl)
  | (st, δ, some e, _) =>
    let em := "Error applying changes: " ++ e
    let ak := askUser ctx st continueQuestion
    if ak.2.2 then
      let lg := appendToLog ak.1 ("Error Log:\n" ++ em ++ "\nUser chose to continue.")
      (lg.1, hd ++ δ ++ [.errorLog em] ++ ak.2.1 ++ lg.2 ++ tl)
    else
      let lg := appendToLog ak.1 ("Error Log:\n" ++ em)
      (lg.1, hd ++ δ ++ [.errorLog em] ++ ak.2.1 ++
        [.info "User chose to exit. Stopping the process."] ++ lg.2)

/-- The text `create_change_log` writes to the change log file. -/
def changeLogContent (dir : String) (org : NewStructure)
    (large_folders : List Path) : String :=
  "Directory Reorganization Change Log\n" ++
  "====================================\n\n" ++
  "New Folders Created:\n" ++
  String.join (org.new_folders.map (fun f => "- " ++ f ++ "\n")) ++ "\n" ++
  "Files Moved/Renamed:\n" ++
  String.join (org.FilePath.map (fun m =>
    "- " ++ renderRel m.original ++ " -> " ++ renderRel m.new ++ "\n")) ++ "\n" ++
  "Large Folders Moved to Top Level:\n" ++
  String.join (large_folders.map (fun f => "- " ++ renderRel f ++ "\n")) ++ "\n" ++
  "Old folders moved to: " ++ joinS dir ["deprecated"] ++ "\n"

/-- `create_change_log(directory, organization, large_folders)`: overwrite
(or create) the change log file with the report, unconditionally — the
`DRY_RUN` flag is never consulted here. -/
def create_change_log (dir : String) (org : NewStructure)
    (large_folders : List Path) (fs : FS) : FS × List Event :=
  (fsWriteFile fs [changeLogName] (changeLogContent dir org large_folders),
   [.info ("Change log created at: " ++ joinS dir [changeLogName])])

/-- The confirmed branch of `main`: `create_change_log` runs to completion,
then `apply_changes` runs. -/
def confirmedRun (ctx : ApplyCtx) (dir : String) (org : NewStructure)
    (large_folders : List Path) (fs0 : FS) : St × List Event :=
  let cl := create_change_log dir org large_folders fs0
  let ap := apply_changes ctx dir org large_folders cl.1
  (ap.1, cl.2 ++ ap.2)

/-! ### Observables used by the applier claims -/

/-- Every event of a trace is a dry-run action log. -/
def DryEvents (evs : List Event) : Prop :=
  ∀ e ∈ evs, ∃ m, e = Event.actionLog ("[DRY RUN] Would " ++ m)

/-- The number of operator prompts in a trace. -/
def countAsks (evs : List Event) : Nat :=
  evs.countP (fun e => match e with
    | .ask _ _ => true
    | _ => false)

/-- The number of persistent change-log appends in a trace. -/
def countAppends (evs : List Event) : Nat :=
  evs.countP (fun e => match e with
    | .changeLogAppend _ => true
    | _ => false)

/-- The error is written to the persistent change log before the operator
is asked: at every point of the trace, the number of prompts asked so far
never exceeds the number of change-log appends performed so far. -/
def LogBeforeAsk (evs : List Event) : Prop :=
  ∀ k, countAsks (evs.take k) ≤ countAppends (evs.take k)

/-- The folder relocations of phase 5, as a fold over the archived
names. -/
def moveFold (fs : FS) (names : List String) : FS :=
  names.foldl (fun fs' n => fsMove fs' [n] ["deprecated", n]) fs

/-- The log event of a phase-5 folder archival. -/
def phase5MoveEvent (dir : String) (n : String) : Event :=
  .actionLog (archiveMsg dir n)

/-- The names phase 5 archives: the current top-level names that are not
planned new folders, not excluded folders' base names, are directories,
and are not the deprecated container. -/
def phase5Names (org : NewStructure) (large_folders : List Path)
    (fs : FS) : List String :=
  ((fsListdir fs).filter (fun n =>
    !(org.new_folders.contains n) &&
      !((large_folders.map lastSeg).contains n))).filter
    (fun n => fsIsDir fs [n] && !(n == "deprecated"))

/-- Shape and hard-prune invariants of a single directory scan: eligible
paths extend the directory's own path and end in a filter-passing name;
excluded paths are the directory itself or descend through one of its
subdirectories; and (for well-formed listings) no eligible path lies under
an excluded folder. -/
def ScanDirInv (a : Path → Bool) (isRoot : Bool) (rel : Path)
    (es : List Entry) : Prop :=
  (∀ f ∈ (scanDir a isRoot rel es).elig,
      ∃ t, f = rel ++ t ∧ t ≠ [] ∧ fileAllowed (lastSeg f) = true) ∧
  (∀ q ∈ (scanDir a isRoot rel es).excl,
      q = rel ∨ ∃ d ∈ dirNamesOf es, ∃ t, q = rel ++ d :: t) ∧
  (wfEntries es = true →
    ∀ q ∈ (scanDir a isRoot rel es).excl,
      ∀ f ∈ (scanDir a isRoot rel es).elig, ¬ q <+: f)

/-- The same invariants for the scan of a directory's subdirectories. -/
def ScanSubsInv (a : Path → Bool) (rel : Path) (es : List Entry) : Prop :=
  (∀ f ∈ (scanSubs a rel es).elig,
      ∃ d ∈ dirNamesOf es, ∃ t, f = rel ++ d :: t ∧
        fileAllowed (lastSeg f) = true) ∧
  (∀ q ∈ (scanSubs a rel es).excl,
      ∃ d ∈ dirNamesOf es, ∃ t, q = rel ++ d :: t) ∧
  (wfEntries es = true →
    ∀ q ∈ (scanSubs a rel es).excl,
      ∀ f ∈ (scanSubs a rel es).elig, ¬ q <+: f)

/-! ### Scanner invariants -/

theorem namesOf_cons_file (n : String) (rest : List Entry) :
    namesOf (.file n :: rest) = n :: namesOf rest := rfl

theorem namesOf_cons_dir (n : String) (c : List Entry) (rest : List Entry) :
    namesOf (.dir n c :: rest) = n :: namesOf rest := rfl

theorem dirNamesOf_cons_file (n : String) (rest : List Entry) :
    dirNamesOf (.file n :: rest) = dirNamesOf rest := rfl

theorem dirNamesOf_cons_dir (n : String) (c : List Entry) (rest : List Entry) :
    dirNamesOf (.dir n c :: rest) = n :: dirNamesOf rest := rfl

theorem fileNamesOf_cons_file (n : String) (rest : List Entry) :
    fileNamesOf (.file n :: rest) = n :: fileNamesOf rest := rfl

theorem fileNamesOf_cons_dir (n : String) (c : List Entry) (rest : List Entry) :
    fileNamesOf (.dir n c :: rest) = fileNamesOf rest := rfl

theorem dirNames_subset_names {x : String} {es : List Entry}
    (h : x ∈ dirNamesOf es) : x ∈ namesOf es := by
  induction es with
  | nil => simp [dirNamesOf] at h
  | cons e rest ih =>
    cases e with
    | file n =>
      rw [dirNamesOf_cons_file] at h
      rw [namesOf_cons_file]
      exact List.mem_cons_of_mem _ (ih h)
    | dir n c =>
      rw [dirNamesOf_cons_dir] at h
      rw [namesOf_cons_dir]
      rcases List.mem_cons.mp h with rfl | h
      · exact List.mem_cons_self _ _
      · exact List.mem_cons_of_mem _ (ih h)

theorem fileNames_subset_names {x : String} {es : List Entry}
    (h : x ∈ fileNamesOf es) : x ∈ namesOf es := by
  induction es with
  | nil => simp [fileNamesOf] at h
  | cons e rest ih =>
    cases e with
    | file n =>
      rw [fileNamesOf_cons_file] at h
      rw [namesOf_cons_file]
      rcases List.mem_cons.mp h with rfl | h
      · exact List.mem_cons_self _ _
      · exact List.mem_cons_of_mem _ (ih h)
    | dir n c =>
      rw [fileNamesOf_cons_dir] at h
      rw [namesOf_cons_dir]
      exact List.mem_cons_of_mem _ (ih h)

/-- In a well-formed listing a name cannot be both a subdirectory name and
a direct file name. -/
theorem dir_file_names_disjoint {es : List Entry} (hnd : (namesOf es).Nodup)
    {x : String} (hd : x ∈ dirNamesOf es) (hf : x ∈ fileNamesOf es) : False := by
  induction es with
  | nil => simp [dirNamesOf] at hd
  | cons e rest ih =>
    cases e with
    | file n =>
      rw [namesOf_cons_file, List.nodup_cons] at hnd
      rw [dirNamesOf_cons_file] at hd
      rw [fileNamesOf_cons_file] at hf
      rcases List.mem_cons.mp hf with rfl | hf
      · exact hnd.1 (dirNames_subset_names hd)
      · exact ih hnd.2 hd hf
    | dir n c =>
      rw [namesOf_cons_dir, List.nodup_cons] at hnd
      rw [dirNamesOf_cons_dir] at hd
      rw [fileNamesOf_cons_dir] at hf
      rcases List.mem_cons.mp hd with rfl | hd
      · exact hnd.1 (fileNames_subset_names hf)
      · exact ih hnd.2 hd hf

theorem append_prefix_append {α : Type _} (rel s t : List α) :
    rel ++ s <+: rel ++ t ↔ s <+: t := by
  induction rel with
  | nil => simp
  | cons r rel ih => simp [List.cons_prefix_cons, ih]

theorem wfEntries_eq (es : List Entry) :
    wfEntries es = (decide (namesOf es).Nodup && wfAll es) := by
  rw [wfEntries]

theorem wfAll_eq (e : Entry) (rest : List Entry) :
    wfAll (e :: rest) = (wfEntry e && wfAll rest) := by
  rw [wfAll]

theorem wfEntries_nodup {es : List Entry} (h : wfEntries es = true) :
    (namesOf es).Nodup := by
  rw [wfEntries_eq, Bool.and_eq_true, decide_eq_true_eq] at h
  exact h.1

theorem wfEntries_cons {e : Entry} {rest : List Entry}
    (h : wfEntries (e :: rest) = true) : wfEntries rest = true := by
  rw [wfEntries_eq, Bool.and_eq_true, decide_eq_true_eq, wfAll_eq,
    Bool.and_eq_true] at h
  obtain ⟨hnd, _, hall⟩ := h
  rw [wfEntries_eq, Bool.and_eq_true, decide_eq_true_eq]
  refine ⟨?_, hall⟩
  cases e with
  | file n => rw [namesOf_cons_file] at hnd; exact hnd.of_cons
  | dir n c => rw [namesOf_cons_dir] at hnd; exact hnd.of_cons

theorem wfEntries_dir {d : String} {c : List Entry} {rest : List Entry}
    (h : wfEntries (.dir d c :: rest) = true) : wfEntries c = true := by
  rw [wfEntries_eq, Bool.and_eq_true, wfAll_eq, Bool.and_eq_true] at h
  have h' := h.2.1
  simp only [wfEntry] at h'
  exact h'

theorem wfEntries_head_name {d : String} {c : List Entry} {rest : List Entry}
    (h : wfEntries (.dir d c :: rest) = true) : d ∉ namesOf rest := by
  rw [wfEntries_eq, Bool.and_eq_true, decide_eq_true_eq] at h
  rw [namesOf_cons_dir, List.nodup_cons] at h
  exact h.1.1

theorem scanSubs_nil (a : Path → Bool) (rel : Path) :
    scanSubs a rel [] = ⟨[], [], []⟩ := by
  rw [scanSubs]

theorem scanSubs_cons_file (a : Path → Bool) (rel : Path) (n : String)
    (rest : List Entry) :
    scanSubs a rel (.file n :: rest) = scanSubs a rel rest := by
  rw [scanSubs]

theorem scanSubs_cons_dir (a : Path → Bool) (rel : Path) (d : String)
    (c : List Entry) (rest : List Entry) :
    scanSubs a rel (.dir d c :: rest) =
      ⟨(scanDir a false (rel ++ [d]) c).elig ++ (scanSubs a rel rest).elig,
       (scanDir a false (rel ++ [d]) c).excl ++ (scanSubs a rel rest).excl,
       (scanDir a false (rel ++ [d]) c).prompts ++
         (scanSubs a rel rest).prompts⟩ := by
  rw [scanSubs]

/-- A rejected prompt records exactly the directory's relative path and
contributes no eligible paths: the subtree is pruned. -/
theorem scanDir_rejected (a : Path → Bool) (isRoot : Bool) (rel : Path)
    (es : List Entry) (k : PromptKind)
    (hk : promptOf isRoot (dirNamesOf es) (fileNamesOf es) = some k)
    (ha : a rel = false) :
    scanDir a isRoot rel es = ⟨[], [rel], [(k, rel, (fileNamesOf es).length)]⟩ := by
  rw [scanDir, hk]
  simp [ha]

/-- A directory that is not rejected collects its filtered direct files and
the results of scanning its subdirectories. -/
theorem scanDir_not_rejected (a : Path → Bool) (isRoot : Bool) (rel : Path)
    (es : List Entry)
    (h : promptOf isRoot (dirNamesOf es) (fileNamesOf es) = none ∨ a rel = true) :
    (scanDir a isRoot rel es).elig =
      collectFiles rel (fileNamesOf es) ++ (scanSubs a rel es).elig ∧
    (scanDir a isRoot rel es).excl = (scanSubs a rel es).excl := by
  rw [scanDir]
  rcases hk : promptOf isRoot (dirNamesOf es) (fileNamesOf es) with _ | k
  · simp
  · rcases h with h | h
    · rw [hk] at h; cases h
    · simp [h]

theorem lastSeg_append_singleton (p : Path) (x : String) :
    lastSeg (p ++ [x]) = x := by
  simp [lastSeg]

theorem mem_collectFiles {f : Path} {rel : Path} {files : List String}
    (h : f ∈ collectFiles rel files) :
    ∃ x, x ∈ files ∧ fileAllowed x = true ∧ f = rel ++ [x] := by
  unfold collectFiles at h
  obtain ⟨x, hx, rfl⟩ := List.mem_map.mp h
  exact ⟨x, (List.mem_filter.mp hx).1, (List.mem_filter.mp hx).2, rfl⟩

/-- The directory-level invariant follows from the subdirectory-level one
whenever the directory itself is not rejected. -/
theorem scanDirInv_of_not_rejected {a : Path → Bool} {isRoot : Bool}
    {rel : Path} {es : List Entry}
    (he : (scanDir a isRoot rel es).elig =
      collectFiles rel (fileNamesOf es) ++ (scanSubs a rel es).elig)
    (hx : (scanDir a isRoot rel es).excl = (scanSubs a rel es).excl)
    (s1 : ∀ f ∈ (scanSubs a rel es).elig,
      ∃ d ∈ dirNamesOf es, ∃ t, f = rel ++ d :: t ∧
        fileAllowed (lastSeg f) = true)
    (s2 : ∀ q ∈ (scanSubs a rel es).excl,
      ∃ d ∈ dirNamesOf es, ∃ t, q = rel ++ d :: t)
    (s3 : wfEntries es = true →
      ∀ q ∈ (scanSubs a rel es).excl,
        ∀ f ∈ (scanSubs a rel es).elig, ¬ q <+: f) :
    ScanDirInv a isRoot rel es := by
  refine ⟨?_, ?_, ?_⟩
  · intro f hf
    rw [he] at hf
    rcases List.mem_append.mp hf with hf | hf
    · obtain ⟨x, _, hall, rfl⟩ := mem_collectFiles hf
      exact ⟨[x], rfl, by simp, by rw [lastSeg_append_singleton]; exact hall⟩
    · obtain ⟨d, _, t, rfl, hall⟩ := s1 f hf
      exact ⟨d :: t, rfl, by simp, hall⟩
  · intro q hq
    rw [hx] at hq
    obtain ⟨d, hd, t, rfl⟩ := s2 q hq
    exact Or.inr ⟨d, hd, t, rfl⟩
  · intro hwf q hq f hf
    rw [hx] at hq
    rw [he] at hf
    rcases List.mem_append.mp hf with hf | hf
    · obtain ⟨x, hxf, _, rfl⟩ := mem_collectFiles hf
      obtain ⟨d, hd, t, rfl⟩ := s2 q hq
      intro hpre
      rw [append_prefix_append] at hpre
      have hdx := (List.cons_prefix_cons.mp hpre).1
      subst hdx
      exact dir_file_names_disjoint (wfEntries_nodup hwf) hd hxf
    · exact s3 hwf q hq f hf

/-- The combined scanner invariant, by strong induction on the size of the
entry list. -/
theorem scanInv_aux :
    ∀ (n : Nat) (es : List Entry), sizeOf es < n →
      (∀ (a : Path → Bool) (isRoot : Bool) (rel : Path),
          ScanDirInv a isRoot rel es) ∧
      (∀ (a : Path → Bool) (rel : Path), ScanSubsInv a rel es) := by
  intro n
  induction n with
  | zero => intro es h; omega
  | succ n ih =>
    intro es hsz
    have hsubs : ∀ (a : Path → Bool) (rel : Path), ScanSubsInv a rel es := by
      intro a rel
      cases es with
      | nil =>
        refine ⟨?_, ?_, ?_⟩ <;> simp [scanSubs_nil]
      | cons e rest =>
        cases e with
        | file fn =>
          have hszr : sizeOf rest < n := by
            simp only [List.cons.sizeOf_spec] at hsz; omega
          obtain ⟨h1, h2, h3⟩ := (ih rest hszr).2 a rel
          refine ⟨?_, ?_, ?_⟩
          · rw [scanSubs_cons_file, dirNamesOf_cons_file]; exact h1
          · rw [scanSubs_cons_file, dirNamesOf_cons_file]; exact h2
          · intro hwf
            rw [scanSubs_cons_file]
            exact h3 (wfEntries_cons hwf)
        | dir d c =>
          have hszc : sizeOf c < n := by
            simp only [List.cons.sizeOf_spec, Entry.dir.sizeOf_spec] at hsz
            omega
          have hszr : sizeOf rest < n := by
            simp only [List.cons.sizeOf_spec] at hsz; omega
          obtain ⟨d1, d2, d3⟩ := (ih c hszc).1 a false (rel ++ [d])
          obtain ⟨r1, r2, r3⟩ := (ih rest hszr).2 a rel
          have hcons : ∀ (t : Path), (rel ++ [d]) ++ t = rel ++ d :: t := by
            intro t; simp
          have hdmem : d ∈ dirNamesOf (Entry.dir d c :: rest) := by
            rw [dirNamesOf_cons_dir]; exact List.mem_cons_self _ _
          have hdmem' : ∀ {x : String}, x ∈ dirNamesOf rest →
              x ∈ dirNamesOf (Entry.dir d c :: rest) := by
            intro x hx
            rw [dirNamesOf_cons_dir]; exact List.mem_cons_of_mem _ hx
          refine ⟨?_, ?_, ?_⟩
          · intro f hf
            rw [scanSubs_cons_dir] at hf
            rcases List.mem_append.mp hf with hf | hf
            · obtain ⟨t, rfl, _, hall⟩ := d1 f hf
              exact ⟨d, hdmem, t, hcons t, hall⟩
            · obtain ⟨d', hd', t, rfl, hall⟩ := r1 f hf
              exact ⟨d', hdmem' hd', t, rfl, hall⟩
          · intro q hq
            rw [scanSubs_cons_dir] at hq
            rcases List.mem_append.mp hq with hq | hq
            · rcases d2 q hq with rfl | ⟨d', _, t, rfl⟩
              · exact ⟨d, hdmem, [], by simp⟩
              · exact ⟨d, hdmem, d' :: t, by simp⟩
            · obtain ⟨d', hd', t, rfl⟩ := r2 q hq
              exact ⟨d', hdmem' hd', t, rfl⟩
          · intro hwf q hq f hf
            rw [scanSubs_cons_dir] at hq hf
            have hdnotin : d ∉ namesOf rest := wfEntries_head_name hwf
            rcases List.mem_append.mp hq with hq | hq <;>
              rcases List.mem_append.mp hf with hf | hf
            · exact d3 (wfEntries_dir hwf) q hq f hf
            · -- q under `d`, f under a later sibling: heads differ
              obtain ⟨d', hd', t', rfl, _⟩ := r1 f hf
              have hq' : ∃ s, q = rel ++ d :: s := by
                rcases d2 q hq with rfl | ⟨d₂, _, t₂, rfl⟩
                · exact ⟨[], by simp⟩
                · exact ⟨d₂ :: t₂, by simp⟩
              obtain ⟨s, rfl⟩ := hq'
              intro hpre
              rw [append_prefix_append] at hpre
              have := (List.cons_prefix_cons.mp hpre).1
              subst this
              exact hdnotin (dirNames_subset_names hd')
            · -- q under a later sibling, f under `d`
              obtain ⟨d₂, hd₂, t₂, rfl⟩ := r2 q hq
              obtain ⟨t', rfl, _, _⟩ := d1 f hf
              rw [hcons t']
              intro hpre
              rw [append_prefix_append] at hpre
              have hds := (List.cons_prefix_cons.mp hpre).1
              subst hds
              exact hdnotin (dirNames_subset_names hd₂)
            · exact r3 (wfEntries_cons hwf) q hq f hf
    have hdir : ∀ (a : Path → Bool) (isRoot : Bool) (rel : Path),
        ScanDirInv a isRoot rel es := by
      intro a isRoot rel
      obtain ⟨s1, s2, s3⟩ := hsubs a rel
      rcases hk : promptOf isRoot (dirNamesOf es) (fileNamesOf es) with _ | k
      · -- not prompted
        obtain ⟨he, hx⟩ := scanDir_not_rejected a isRoot rel es (Or.inl hk)
        exact scanDirInv_of_not_rejected he hx s1 s2 s3
      · by_cases ha : a rel
        · obtain ⟨he, hx⟩ := scanDir_not_rejected a isRoot rel es (Or.inr ha)
          exact scanDirInv_of_not_rejected he hx s1 s2 s3
        · -- rejected: pruned
          have ha' : a rel = false := Bool.eq_false_iff.mpr ha
          have heq := scanDir_rejected a isRoot rel es k hk ha'
          refine ⟨?_, ?_, ?_⟩
          · intro f hf; rw [heq] at hf; simp at hf
          · intro q hq
            rw [heq] at hq
            simp at hq
            exact Or.inl hq
          · intro _ q _ f hf; rw [heq] at hf; simp at hf
    exact ⟨hdir, hsubs⟩

/-! ### Applier lemmas -/

theorem execOrLog_dry {ctx : ApplyCtx} (h : ctx.dryRun = true)
    (st : St) (ops : List FSOp) (msg : String) :
    execOrLog ctx st ops msg =
      (st, [.actionLog ("[DRY RUN] Would " ++ msg)], none) := by
  simp [execOrLog, h]

theorem execOrLog_real {ctx : ApplyCtx} (h : ctx.dryRun = false)
    (st : St) (ops : List FSOp) (msg : String) :
    execOrLog ctx st ops msg =
      ({st with fs := (runOps ctx.oracle st.fs ops).1}, [.actionLog msg],
        (runOps ctx.oracle st.fs ops).2) := by
  simp [execOrLog, h]

theorem dryEvents_nil : DryEvents [] := by
  intro e he; cases he

theorem dryEvents_append {xs ys : List Event}
    (hx : DryEvents xs) (hy : DryEvents ys) : DryEvents (xs ++ ys) := by
  intro e he
  rcases List.mem_append.mp he with h | h
  · exact hx e h
  · exact hy e h

theorem dryEvents_single (m : String) :
    DryEvents [.actionLog ("[DRY RUN] Would " ++ m)] := by
  intro e he
  rcases List.mem_singleton.mp he with rfl
  exact ⟨m, rfl⟩

theorem phase1_dry {ctx : ApplyCtx} (h : ctx.dryRun = true)
    (dir : String) (st : St) :
    phase1 ctx dir st =
      (st, [.actionLog ("[DRY RUN] Would " ++
        ("create deprecated folder: " ++ joinS dir ["deprecated"]))], none) := by
  rw [phase1, execOrLog_dry h]

theorem phase2_dry {ctx : ApplyCtx} (h : ctx.dryRun = true) (dir : String) :
    ∀ (lf : List Path) (st : St), ∃ δ,
      phase2 ctx dir lf st = (st, δ, none) ∧ DryEvents δ := by
  intro lf
  induction lf with
  | nil => intro st; exact ⟨[], rfl, dryEvents_nil⟩
  | cons folder rest ih =>
    intro st
    obtain ⟨δ, hrec, hdry⟩ := ih st
    by_cases hj : (joinS dir folder == joinS dir [lastSeg folder]) = true
    · refine ⟨δ, ?_, hdry⟩
      simp only [phase2, hj, if_true]
      exact hrec
    · rw [Bool.not_eq_true] at hj
      refine ⟨[Event.actionLog ("[DRY RUN] Would " ++
          ("move large folder: " ++ joinS dir folder ++ " -> " ++
            joinS dir [lastSeg folder]))] ++ δ, ?_,
        dryEvents_append (dryEvents_single _) hdry⟩
      simp only [phase2, hj, Bool.false_eq_true, if_false, execOrLog_dry h,
        hrec]

theorem phase3_dry {ctx : ApplyCtx} (h : ctx.dryRun = true) (dir : String) :
    ∀ (folders : List String) (st : St), ∃ δ,
      phase3 ctx dir folders st = (st, δ, none) ∧ DryEvents δ := by
  intro folders
  induction folders with
  | nil => intro st; exact ⟨[], rfl, dryEvents_nil⟩
  | cons folder rest ih =>
    intro st
    obtain ⟨δ, hrec, hdry⟩ := ih st
    refine ⟨[Event.actionLog ("[DRY RUN] Would " ++
        ("create folder: " ++ joinS dir [folder]))] ++ δ, ?_,
      dryEvents_append (dryEvents_single _) hdry⟩
    simp only [phase3, execOrLog_dry h, hrec]

theorem phase4_dry {ctx : ApplyCtx} (h : ctx.dryRun = true) (dir : String) :
    ∀ (ms : List FileMove) (st : St), ∃ δ,
      phase4 ctx dir ms st = (st, δ, false) ∧ DryEvents δ := by
  intro ms
  induction ms with
  | nil => intro st; exact ⟨[], rfl, dryEvents_nil⟩
  | cons m rest ih =>
    intro st
    obtain ⟨δ, hrec, hdry⟩ := ih st
    refine ⟨[Event.actionLog ("[DRY RUN] Would " ++ moveMsg dir m)] ++ δ, ?_,
      dryEvents_append (dryEvents_single _) hdry⟩
    simp only [phase4, execOrLog_dry h, hrec]

theorem phase5loop_dry {ctx : ApplyCtx} (h : ctx.dryRun = true)
    (dir : String) :
    ∀ (names : List String) (st : St), ∃ δ,
      phase5loop ctx dir names st = (st, δ, none) ∧ DryEvents δ := by
  intro names
  induction names with
  | nil => intro st; exact ⟨[], rfl, dryEvents_nil⟩
  | cons n rest ih =>
    intro st
    obtain ⟨δ, hrec, hdry⟩ := ih st
    by_cases hc : (fsIsDir st.fs [n] && !(n == "deprecated")) = true
    · refine ⟨[Event.actionLog ("[DRY RUN] Would " ++ archiveMsg dir n)] ++ δ,
        ?_, dryEvents_append (dryEvents_single _) hdry⟩
      simp only [phase5loop, hc, if_true, execOrLog_dry h, hrec]
    · rw [Bool.not_eq_true] at hc
      refine ⟨δ, ?_, hdry⟩
      simp only [phase5loop, hc, Bool.false_eq_true, if_false]
      exact hrec

theorem phase5_dry {ctx : ApplyCtx} (h : ctx.dryRun = true) (dir : String)
    (org : NewStructure) (lf : List Path) (st : St) : ∃ δ,
      phase5 ctx dir org lf st = (st, δ, none) ∧ DryEvents δ := by
  unfold phase5
  exact phase5loop_dry h dir _ st

theorem applyPhases_dry {ctx : ApplyCtx} (h : ctx.dryRun = true)
    (dir : String) (org : NewStructure) (lf : List Path) (st : St) : ∃ δ,
      applyPhases ctx dir org lf st = (st, δ, none, false) ∧ DryEvents δ := by
  obtain ⟨δ2, h2, hd2⟩ := phase2_dry h dir lf st
  obtain ⟨δ3, h3, hd3⟩ := phase3_dry h dir org.new_folders st
  obtain ⟨δ4, h4, hd4⟩ := phase4_dry h dir org.FilePath st
  obtain ⟨δ5, h5, hd5⟩ := phase5_dry h dir org lf st
  refine ⟨[Event.actionLog ("[DRY RUN] Would " ++
      ("create deprecated folder: " ++ joinS dir ["deprecated"]))] ++
      (δ2 ++ (δ3 ++ (δ4 ++ δ5))), ?_,
    dryEvents_append (dryEvents_single _) (dryEvents_append hd2
      (dryEvents_append hd3 (dryEvents_append hd4 hd5)))⟩
  unfold applyPhases
  rw [phase1_dry h]
  dsimp only
  rw [h2]
  dsimp only
  rw [h3]
  dsimp only
  rw [h4]
  dsimp only
  rw [h5]
  simp

theorem apply_changes_early {ctx : ApplyCtx} {dir : String}
    {org : NewStructure} {lf : List Path} {fs0 : FS} {st : St}
    {δ : List Event}
    (h : applyPhases ctx dir org lf ⟨fs0, 0⟩ = (st, δ, none, true)) :
    apply_changes ctx dir org lf fs0 = (st, hdEvents ctx ++ δ) := by
  simp only [apply_changes]
  rw [h]

theorem apply_changes_ok {ctx : ApplyCtx} {dir : String}
    {org : NewStructure} {lf : List Path} {fs0 : FS} {st : St}
    {δ : List Event}
    (h : applyPhases ctx dir org lf ⟨fs0, 0⟩ = (st, δ, none, false)) :
    apply_changes ctx dir org lf fs0 =
      (st, hdEvents ctx ++ δ ++ tlEvents ctx) := by
  simp only [apply_changes]
  rw [h]

theorem apply_changes_outer_abort {ctx : ApplyCtx} {dir : String}
    {org : NewStructure} {lf : List Path} {fs0 : FS} {st : St}
    {δ : List Event} {e : String} {b : Bool}
    (h : applyPhases ctx dir org lf ⟨fs0, 0⟩ = (st, δ, some e, b))
    (hans : ctx.answers st.nAsk = false) :
    apply_changes ctx dir org lf fs0 =
      (⟨fsAppendFile st.fs [changeLogName]
          ("\n" ++ ("Error Log:\n" ++ ("Error applying changes: " ++ e)) ++
            "\n"), st.nAsk + 1⟩,
       hdEvents ctx ++ δ ++
         [.errorLog ("Error applying changes: " ++ e),
          .ask continueQuestion false,
          .info "User chose to exit. Stopping the process.",
          .changeLogAppend
            ("Error Log:\n" ++ ("Error applying changes: " ++ e))]) := by
  simp only [apply_changes]
  rw [h]
  dsimp only [askUser, appendToLog]
  rw [hans]
  simp

theorem apply_changes_outer_continue {ctx : ApplyCtx} {dir : String}
    {org : NewStructure} {lf : List Path} {fs0 : FS} {st : St}
    {δ : List Event} {e : String} {b : Bool}
    (h : applyPhases ctx dir org lf ⟨fs0, 0⟩ = (st, δ, some e, b))
    (hans : ctx.answers st.nAsk = true) :
    apply_changes ctx dir org lf fs0 =
      (⟨fsAppendFile st.fs [changeLogName]
          ("\n" ++ ("Error Log:\n" ++ ("Error applying changes: " ++ e) ++
            "\nUser chose to continue.") ++ "\n"), st.nAsk + 1⟩,
       hdEvents ctx ++ δ ++
         [.errorLog ("Error applying changes: " ++ e),
          .ask continueQuestion true,
          .changeLogAppend ("Error Log:\n" ++
            ("Error applying changes: " ++ e) ++
            "\nUser chose to continue.")] ++ tlEvents ctx) := by
  simp only [apply_changes]
  rw [h]
  dsimp only [askUser, appendToLog]
  rw [hans]
  simp

theorem applyPhases_eq {ctx : ApplyCtx} {dir : String} {org : NewStructure}
    {lf : List Path} {st st1 st2 st3 st4 : St} {δ1 δ2 δ3 δ4 : List Event}
    {ret : Bool}
    (h1 : phase1 ctx dir st = (st1, δ1, none))
    (h2 : phase2 ctx dir lf st1 = (st2, δ2, none))
    (h3 : phase3 ctx dir org.new_folders st2 = (st3, δ3, none))
    (h4 : phase4 ctx dir org.FilePath st3 = (st4, δ4, ret)) :
    applyPhases ctx dir org lf st =
      if ret then (st4, δ1 ++ δ2 ++ δ3 ++ δ4, none, true)
      else ((phase5 ctx dir org lf st4).1,
        δ1 ++ δ2 ++ δ3 ++ δ4 ++ (phase5 ctx dir org lf st4).2.1,
        (phase5 ctx dir org lf st4).2.2, false) := by
  unfold applyPhases
  rw [h1]
  dsimp only
  rw [h2]
  dsimp only
  rw [h3]
  dsimp only
  rw [h4]
  cases ret
  · rcases hp5 : phase5 ctx dir org lf st4 with ⟨st5, δ5, r5⟩
    simp [hp5]
  · simp

theorem phase4_ok_step {ctx : ApplyCtx} (hdry : ctx.dryRun = false)
    {dir : String} {m : FileMove} {rest : List FileMove} {st : St}
    {fs' : FS}
    (hok : runOps ctx.oracle st.fs
      [.makeDirs m.new.dropLast, .move m.original m.new] = (fs', none)) :
    phase4 ctx dir (m :: rest) st =
      ((phase4 ctx dir rest ⟨fs', st.nAsk⟩).1,
       [.actionLog (moveMsg dir m)] ++
         (phase4 ctx dir rest ⟨fs', st.nAsk⟩).2.1,
       (phase4 ctx dir rest ⟨fs', st.nAsk⟩).2.2) := by
  simp only [phase4, execOrLog_real hdry, hok]

theorem phase4_fail_abort {ctx : ApplyCtx} (hdry : ctx.dryRun = false)
    {dir : String} {m : FileMove} {rest : List FileMove} {st : St}
    {fs' : FS} {e : String}
    (hfail : runOps ctx.oracle st.fs
      [.makeDirs m.new.dropLast, .move m.original m.new] = (fs', some e))
    (hans : ctx.answers st.nAsk = false) :
    phase4 ctx dir (m :: rest) st =
      (⟨fsAppendFile fs' [changeLogName]
          ("\n" ++ ("Error Log:\n" ++ moveErrMsg dir m e) ++ "\n"),
        st.nAsk + 1⟩,
       [.actionLog (moveMsg dir m), .errorLog (moveErrMsg dir m e),
        .changeLogAppend ("Error Log:\n" ++ moveErrMsg dir m e),
        .ask skipQuestion false,
        .info "User chose to exit. Stopping the process."],
       true) := by
  simp only [phase4, execOrLog_real hdry, hfail]
  dsimp only [appendToLog, askUser]
  rw [hans]
  simp

theorem phase4_fail_skip {ctx : ApplyCtx} (hdry : ctx.dryRun = false)
    {dir : String} {m : FileMove} {rest : List FileMove} {st st' : St}
    {fs' : FS} {e : String}
    (hfail : runOps ctx.oracle st.fs
      [.makeDirs m.new.dropLast, .move m.original m.new] = (fs', some e))
    (hans : ctx.answers st.nAsk = true)
    (hst : st' = ⟨fsAppendFile fs' [changeLogName]
      ("\n" ++ ("Error Log:\n" ++ moveErrMsg dir m e) ++ "\n"),
      st.nAsk + 1⟩) :
    phase4 ctx dir (m :: rest) st =
      ((phase4 ctx dir rest st').1,
       [.actionLog (moveMsg dir m), .errorLog (moveErrMsg dir m e),
        .changeLogAppend ("Error Log:\n" ++ moveErrMsg dir m e),
        .ask skipQuestion true] ++ (phase4 ctx dir rest st').2.1,
       (phase4 ctx dir rest st').2.2) := by
  subst hst
  simp only [phase4, execOrLog_real hdry, hfail]
  dsimp only [appendToLog, askUser]
  rw [hans]
  simp

theorem countAsks_append (xs ys : List Event) :
    countAsks (xs ++ ys) = countAsks xs + countAsks ys := by
  unfold countAsks
  exact List.countP_append _ _ _

theorem countAppends_append (xs ys : List Event) :
    countAppends (xs ++ ys) = countAppends xs + countAppends ys := by
  unfold countAppends
  exact List.countP_append _ _ _

theorem logBeforeAsk_append {xs ys : List Event}
    (hx : LogBeforeAsk xs) (hy : LogBeforeAsk ys) :
    LogBeforeAsk (xs ++ ys) := by
  intro k
  rw [List.take_append_eq_append_take, countAsks_append, countAppends_append]
  exact Nat.add_le_add (hx k) (hy _)

theorem logBeforeAsk_of_no_ask {evs : List Event}
    (h : countAsks evs = 0) : LogBeforeAsk evs := by
  intro k
  have hle : countAsks (evs.take k) ≤ countAsks evs := by
    unfold countAsks
    exact List.Sublist.countP_le _ (List.take_sublist k evs)
  omega

theorem countAsks_of_dry {evs : List Event} (h : DryEvents evs) :
    countAsks evs = 0 := by
  unfold countAsks
  rw [List.countP_eq_zero]
  intro e he
  obtain ⟨m, rfl⟩ := h e he
  simp

/-- In a trace of the shape `action log, error log, change-log append,
prompt, rest`, every prompt is preceded by at least as many appends,
provided the same holds in `rest`. -/
theorem logBeforeAsk_errBlock {m1 m2 x q : String} {b : Bool}
    {rest : List Event} (hrest : LogBeforeAsk rest) :
    LogBeforeAsk (.actionLog m1 :: .errorLog m2 :: .changeLogAppend x ::
      .ask q b :: rest) := by
  intro k
  match k with
  | 0 => simp [countAsks, countAppends]
  | 1 => simp [countAsks, countAppends]
  | 2 => simp [countAsks, countAppends]
  | 3 => simp [countAsks, countAppends]
  | (n + 4) =>
    simp only [List.take_succ_cons, countAsks, countAppends,
      List.countP_cons] at *
    have := hrest n
    unfold countAsks countAppends at this
    simp at *
    omega

/-- Phase 4 appends every error to the change log before the corresponding
skip prompt is shown. -/
theorem phase4_logBeforeAsk (ctx : ApplyCtx) (dir : String) :
    ∀ (ms : List FileMove) (st : St),
      LogBeforeAsk (phase4 ctx dir ms st).2.1 := by
  intro ms
  induction ms with
  | nil =>
    intro st
    apply logBeforeAsk_of_no_ask
    simp [phase4, countAsks]
  | cons m rest ih =>
    intro st
    by_cases hdry : ctx.dryRun = true
    · obtain ⟨δ, heq, hdryev⟩ := phase4_dry hdry dir (m :: rest) st
      rw [heq]
      exact logBeforeAsk_of_no_ask (countAsks_of_dry hdryev)
    · rw [Bool.not_eq_true] at hdry
      rcases hro : runOps ctx.oracle st.fs
        [.makeDirs m.new.dropLast, .move m.original m.new] with ⟨fs', o⟩
      cases o with
      | none =>
        rw [phase4_ok_step hdry hro]
        refine logBeforeAsk_append (logBeforeAsk_of_no_ask ?_) (ih _)
        simp [countAsks]
      | some e =>
        by_cases hans : ctx.answers st.nAsk = true
        · rw [phase4_fail_skip hdry hro hans rfl]
          exact logBeforeAsk_errBlock (ih _)
        · rw [Bool.not_eq_true] at hans
          rw [phase4_fail_abort hdry hro hans]
          refine logBeforeAsk_errBlock ?_
          apply logBeforeAsk_of_no_ask
          simp [countAsks]

theorem beq_append_ne_of_length (R s t : Path) (h : t.length < R.length) :
    ((R ++ s == t) = false) := by
  rw [beq_eq_false_iff_ne]
  intro hc
  have := congrArg List.length hc
  simp at this
  omega

/-- Archiving one top-level folder does not change whether any other
top-level name is a directory. -/
theorem fsIsDir_move_top {fs : FS} {n m : String} (hmn : m ≠ n) :
    fsIsDir (fsMove fs [n] ["deprecated", n]) [m] = fsIsDir fs [m] := by
  simp only [fsMove, fsIsDir]
  rw [List.any_map]
  congr 1
  funext node
  simp only [Function.comp_apply]
  split
  · next hp =>
    rw [List.isPrefixOf_iff_prefix] at hp
    obtain ⟨t, ht⟩ := hp
    have hpath : node.path = n :: t := by rw [← ht]; rfl
    have h1 : (node.path == ([m] : Path)) = false := by
      rw [hpath, beq_eq_false_iff_ne]
      intro hcontra
      rw [List.cons_eq_cons] at hcontra
      exact hmn hcontra.1.symm
    rw [h1]
    dsimp only
    split
    · rw [beq_append_ne_of_length (["deprecated", n] ++ [lastSeg [n]]) _ _
        (by simp)]
    · rw [beq_append_ne_of_length ["deprecated", n] _ _ (by simp)]
  · rfl

/-- Archiving one top-level folder does not create or remove a directory
at `deprecated/x` for any other name `x`. -/
theorem fsIsDir_move_dep {fs : FS} {n x : String} (hxn : x ≠ n)
    (hndep : n ≠ "deprecated") :
    fsIsDir (fsMove fs [n] ["deprecated", n]) ["deprecated", x] =
      fsIsDir fs ["deprecated", x] := by
  simp only [fsMove, fsIsDir]
  rw [List.any_map]
  congr 1
  funext node
  simp only [Function.comp_apply]
  split
  · next hp =>
    rw [List.isPrefixOf_iff_prefix] at hp
    obtain ⟨t, ht⟩ := hp
    have hpath : node.path = n :: t := by rw [← ht]; rfl
    have h1 : (node.path == (["deprecated", x] : Path)) = false := by
      rw [hpath, beq_eq_false_iff_ne]
      intro hcontra
      rw [List.cons_eq_cons] at hcontra
      exact hndep hcontra.1
    rw [h1]
    dsimp only
    split
    · rw [beq_append_ne_of_length (["deprecated", n] ++ [lastSeg [n]]) _ _
        (by simp)]
    · have h2 : ((["deprecated", n] ++ node.path.drop [n].length ==
          (["deprecated", x] : Path)) = false) := by
        rw [hpath, beq_eq_false_iff_ne]
        simp only [List.length_singleton, List.drop_succ_cons,
          List.drop_zero, List.cons_append, List.nil_append]
        intro hcontra
        rw [List.cons_eq_cons] at hcontra
        rw [List.cons_eq_cons] at hcontra
        exact hxn hcontra.2.1.symm
      rw [h2]
  · rfl

/-- The phase-5 loop in a real run without move failures: its events are
exactly one archival log per processed name that currently is a
non-`deprecated` directory, its error is `none`, it asks nothing, and its
filesystem is the fold of the corresponding moves. -/
theorem phase5loop_spec {ctx : ApplyCtx} (hdry : ctx.dryRun = false)
    (hok : ∀ s d, ctx.oracle (.move s d) = none) (dir : String) :
    ∀ (names : List String) (st : St), names.Nodup →
      phase5loop ctx dir names st =
        (⟨moveFold st.fs (names.filter
            (fun n => fsIsDir st.fs [n] && !(n == "deprecated"))), st.nAsk⟩,
         (names.filter (fun n => fsIsDir st.fs [n] && !(n == "deprecated"))).map
           (phase5MoveEvent dir),
         none) := by
  intro names
  induction names with
  | nil =>
    intro st _
    simp [phase5loop, moveFold]
  | cons n rest ih =>
    intro st hnd
    rw [List.nodup_cons] at hnd
    by_cases hc : (fsIsDir st.fs [n] && !(n == "deprecated")) = true
    · rw [List.filter_cons, if_pos hc]
      have hr : runOps ctx.oracle st.fs [.move [n] ["deprecated", n]] =
          (fsMove st.fs [n] ["deprecated", n], none) := by
        simp [runOps, hok, applyOp]
      simp only [phase5loop, hc, if_true, execOrLog_real hdry, hr]
      have ihst := ih ⟨fsMove st.fs [n] ["deprecated", n], st.nAsk⟩ hnd.2
      rw [ihst]
      have hf : rest.filter (fun m =>
          fsIsDir (fsMove st.fs [n] ["deprecated", n]) [m] &&
            !(m == "deprecated")) =
          rest.filter (fun m => fsIsDir st.fs [m] && !(m == "deprecated")) := by
        apply List.filter_congr
        intro m hm
        have hmn : m ≠ n := fun hcon => hnd.1 (hcon ▸ hm)
        rw [fsIsDir_move_top hmn]
      rw [hf]
      simp [moveFold, phase5MoveEvent]
    · rw [Bool.not_eq_true] at hc
      rw [List.filter_cons, if_neg (by simp [hc])]
      simp only [phase5loop, hc, Bool.false_eq_true, if_false]
      exact ih st hnd.2

/-- A node whose top-level name is not among the archived names is left in
place by the phase-5 moves. -/
theorem moveFold_preserve :
    ∀ (names : List String) (fs : FS) (node : Node) (m : String)
      (rest' : Path), node ∈ fs → node.path = m :: rest' → m ∉ names →
      node ∈ moveFold fs names := by
  intro names
  induction names with
  | nil => intro fs node m rest' hmem _ _; exact hmem
  | cons n ns ih =>
    intro fs node m rest' hmem hpath hnot
    rw [List.mem_cons] at hnot
    push_neg at hnot
    have hstep : moveFold fs (n :: ns) =
        moveFold (fsMove fs [n] ["deprecated", n]) ns := rfl
    rw [hstep]
    refine ih _ node m rest' ?_ hpath hnot.2
    unfold fsMove
    apply List.mem_map.mpr
    refine ⟨node, hmem, ?_⟩
    rw [if_neg ?_]
    rw [hpath]
    intro hc
    rw [List.isPrefixOf_iff_prefix, List.cons_prefix_cons] at hc
    exact hnot.1 hc.1.symm

/-- A node whose top-level name is among the archived names is re-rooted
under `deprecated` (keeping its base name) by the phase-5 moves, provided
no `deprecated/x` directory pre-exists. -/
theorem moveFold_reloc :
    ∀ (names : List String) (fs : FS) (node : Node) (m : String)
      (rest' : Path), names.Nodup → "deprecated" ∉ names →
      (∀ x ∈ names, fsIsDir fs ["deprecated", x] = false) →
      node ∈ fs → node.path = m :: rest' → m ∈ names →
      (⟨"deprecated" :: m :: rest', node.isDir, node.content⟩ : Node) ∈
        moveFold fs names := by
  intro names
  induction names with
  | nil => intro fs node m rest' _ _ _ _ _ hmem; cases hmem
  | cons n ns ih =>
    intro fs node m rest' hnd hdep hfalse hmem hpath hm
    rw [List.nodup_cons] at hnd
    rw [List.mem_cons] at hdep
    push_neg at hdep
    have hstep : moveFold fs (n :: ns) =
        moveFold (fsMove fs [n] ["deprecated", n]) ns := rfl
    rw [hstep]
    rcases List.mem_cons.mp hm with rfl | hm'
    · -- relocated by this move, then left alone by the later ones
      have hreal : fsIsDir fs ["deprecated", m] = false :=
        hfalse m (List.mem_cons_self _ _)
      have hnew : (⟨"deprecated" :: m :: rest', node.isDir, node.content⟩ :
          Node) ∈ fsMove fs [m] ["deprecated", m] := by
        unfold fsMove
        simp only [hreal, Bool.false_eq_true, if_false]
        apply List.mem_map.mpr
        refine ⟨node, hmem, ?_⟩
        have hpre : (([m] : Path).isPrefixOf node.path) = true := by
          rw [hpath, List.isPrefixOf_iff_prefix, List.cons_prefix_cons]
          exact ⟨rfl, List.nil_prefix⟩
        rw [if_pos hpre, hpath]
        simp
      exact moveFold_preserve ns _ _ "deprecated" (m :: rest') hnew rfl
        (fun hc => hdep.2 hc)
    · have hmn : m ≠ n := fun hcon => hnd.1 (hcon ▸ hm')
      have hnode' : node ∈ fsMove fs [n] ["deprecated", n] := by
        unfold fsMove
        apply List.mem_map.mpr
        refine ⟨node, hmem, ?_⟩
        rw [if_neg ?_]
        rw [hpath]
        intro hc
        rw [List.isPrefixOf_iff_prefix, List.cons_prefix_cons] at hc
        exact hmn hc.1.symm
      refine ih _ node m rest' hnd.2 (fun hc => hdep.2 hc) ?_ hnode' hpath hm'
      intro x hx
      have hxn : x ≠ n := fun hcon => hnd.1 (hcon ▸ hx)
      rw [fsIsDir_move_dep hxn (Ne.symm hdep.1)]
      exact hfalse x (List.mem_cons_of_mem _ hx)

/-! ## Claims -/

/-- C8: `check_directory_permissions` returns false iff the directory does
not exist or one of read/write/execute access is missing, and returns true
when the directory exists and all three are present; a false return makes
`main` stop right after the permission gate, before any scanning or
planning. -/
theorem C8_permission_gate (d : DirStat) (confirmed : Bool) :
    (check_directory_permissions d = false ↔
      (d.pathExists = false ∨ d.readable = false ∨ d.writable = false ∨
        d.executable = false)) ∧
    (check_directory_permissions d = true ↔
      (d.pathExists = true ∧ d.readable = true ∧ d.writable = true ∧
        d.executable = true)) ∧
    (check_directory_permissions d = false →
      mainSteps d confirmed = [.checkPerms]) := by
  obtain ⟨pe, r, w, x, idir⟩ := d
  refine ⟨?_, ?_, ?_⟩ <;>
    cases pe <;> cases r <;> cases w <;> cases x <;>
      simp [check_directory_permissions, mainSteps]

/-- Witness for C8: a nonexistent directory fails the gate and `main`
performs no step beyond the permission check. -/
theorem C8_permission_gate_witness :
    check_directory_permissions ⟨false, true, true, true, true⟩ = false ∧
    mainSteps ⟨false, true, true, true, true⟩ true = [.checkPerms] :=
  ⟨by decide,
   (C8_permission_gate ⟨false, true, true, true, true⟩ true).2.2 (by decide)⟩

/-- C9: the permission gate never checks that the path is a directory — an
existing regular file with read, write and execute access passes the gate
and `main` then reaches the scanner; in general the gate's verdict is
independent of the is-directory bit. -/
theorem C9_gate_ignores_kind :
    check_directory_permissions ⟨true, true, true, true, false⟩ = true ∧
    MainStep.scan ∈ mainSteps ⟨true, true, true, true, false⟩ true ∧
    ∀ (d : DirStat) (b : Bool),
      check_directory_permissions d =
        check_directory_permissions
          ⟨d.pathExists, d.readable, d.writable, d.executable, b⟩ :=
  ⟨by decide, by decide, fun d b => rfl⟩

/-- C4: during the scan a visited directory is prompted iff it is
project-like (marker file or immediate `src` subdirectory) or it has more
than 30 direct files and is not the scan root; the project-like check
takes priority and dictates the prompt wording; a directory with at most
30 files that is not project-like is never prompted.  The last conjunct
ties the decision to the scanner: the prompt trace of a directory scan
starts with exactly the prompt `promptOf` determines for that
directory. -/
theorem C4_prompting (isRoot : Bool) (dirs files : List String) :
    ((promptOf isRoot dirs files).isSome = true ↔
      (isProjectDir dirs files = true ∨
        (files.length > 30 ∧ isRoot = false))) ∧
    (isProjectDir dirs files = true →
      promptOf isRoot dirs files = some .project) ∧
    (isProjectDir dirs files = false → files.length > 30 → isRoot = false →
      promptOf isRoot dirs files = some .large) ∧
    (isProjectDir dirs files = false → files.length ≤ 30 →
      promptOf isRoot dirs files = none) ∧
    (∀ (a : Path → Bool) (rel : Path) (entries : List Entry),
      dirs = dirNamesOf entries → files = fileNamesOf entries →
      (scanDir a isRoot rel entries).prompts =
        (match promptOf isRoot dirs files with
         | some k =>
           (k, rel, files.length) ::
             (if a rel then (scanSubs a rel entries).prompts else [])
         | none => (scanSubs a rel entries).prompts)) := by
  refine ⟨?_, ?_, ?_, ?_, ?_⟩
  · by_cases hp : isProjectDir dirs files <;>
      cases isRoot <;> simp [promptOf, hp]
  · intro hp; simp [promptOf, hp]
  · intro hp hlen hroot; subst hroot; simp [promptOf, hp]
    omega
  · intro hp hlen
    cases isRoot
    · simp [promptOf, hp]
      omega
    · simp [promptOf, hp]
  · intro a rel entries hd hf
    subst hd; subst hf
    rw [scanDir]
    rcases promptOf isRoot (dirNamesOf entries) (fileNamesOf entries) with _ | k
    · simp
    · by_cases h : a rel <;> simp [h]

/-- Witness for C4: a `src`-marked directory prompts as a project, a
31-file non-root directory prompts as a large folder, and a 30-file
unmarked directory is not prompted. -/
theorem C4_prompting_witness :
    promptOf false ["src"] [] = some PromptKind.project ∧
    promptOf false [] (List.replicate 31 "f") = some PromptKind.large ∧
    promptOf false [] (List.replicate 30 "f") = none :=
  ⟨(C4_prompting false ["src"] []).2.1 (by decide),
   (C4_prompting false [] (List.replicate 31 "f")).2.2.1 (by decide)
     (by decide) rfl,
   (C4_prompting false [] (List.replicate 30 "f")).2.2.2.1 (by decide)
     (by decide)⟩

/-- C10: if the scan root itself is project-like and the operator rejects
the prompt, `get_relative_paths` returns an empty eligible list and the
excluded-folders list is exactly `["."]` — the root's exemption from
size-based exclusion does not exempt it from the project prompt. -/
theorem C10_root_rejected (a : Path → Bool) (entries : List Entry)
    (hproj : isProjectDir (dirNamesOf entries) (fileNamesOf entries) = true)
    (hans : a [] = false) :
    get_relative_paths a entries = ([], ["."]) := by
  unfold get_relative_paths
  rw [scanDir]
  simp [promptOf, hproj, hans, renderRel]

/-- Witness for C10: a root holding `package.json` and a text file,
rejected by the operator. -/
theorem C10_root_rejected_witness :
    get_relative_paths (fun _ => false)
      [Entry.file "package.json", Entry.file "a.txt"] = ([], ["."]) :=
  C10_root_rejected (fun _ => false) _ (by decide) rfl

/-- The scanner invariant at the top of any scan. -/
theorem scanInv (es : List Entry) (a : Path → Bool) (isRoot : Bool)
    (rel : Path) : ScanDirInv a isRoot rel es :=
  (scanInv_aux (sizeOf es + 1) es (Nat.lt_succ_self _)).1 a isRoot rel

/-- C3: rejecting a prompted folder records exactly that folder's relative
path in the excluded-folders list and returns nothing from its subtree
(first conjunct: the scan of the rejected directory is
`⟨[], [its path], [its prompt]⟩` — a hard prune); consequently, on a
well-formed tree no eligible path of the whole scan lies at or under any
excluded folder (second conjunct). -/
theorem C3_reject_hard_prune (a : Path → Bool) (es : List Entry) :
    (∀ (isRoot : Bool) (rel : Path) (sub : List Entry) (k : PromptKind),
      promptOf isRoot (dirNamesOf sub) (fileNamesOf sub) = some k →
      a rel = false →
      scanDir a isRoot rel sub =
        ⟨[], [rel], [(k, rel, (fileNamesOf sub).length)]⟩) ∧
    (wfEntries es = true →
      ∀ q ∈ (scanDir a true [] es).excl,
        ∀ f ∈ (scanDir a true [] es).elig, ¬ q <+: f) :=
  ⟨fun isRoot rel sub k hk ha => scanDir_rejected a isRoot rel sub k hk ha,
   (scanInv es a true []).2.2⟩

/-- Witness for C3: rejecting the prompted `proj` folder yields exactly
`excl = [proj]` with no eligible paths from its subtree, and the sibling
eligible file `notes.txt` does not lie under the excluded folder. -/
theorem C3_reject_hard_prune_witness :
    (scanDir (fun p => !(p == ["proj"])) false ["proj"]
        [Entry.file "package.json", Entry.file "x.txt"] =
      ⟨[], [["proj"]], [(PromptKind.project, ["proj"], 2)]⟩) ∧
    ¬ (["proj"] : Path) <+: ["notes.txt"] := by
  constructor
  · exact (C3_reject_hard_prune (fun p => !(p == ["proj"]))
      [Entry.dir "proj" [Entry.file "package.json", Entry.file "x.txt"],
        Entry.file "notes.txt"]).1 false ["proj"]
      [Entry.file "package.json", Entry.file "x.txt"] PromptKind.project
      (by decide) (by decide)
  · exact (C3_reject_hard_prune (fun p => !(p == ["proj"]))
      [Entry.dir "proj" [Entry.file "package.json", Entry.file "x.txt"],
        Entry.file "notes.txt"]).2
      (by simp only [wfEntries, wfAll, wfEntry]; decide)
      ["proj"] (by simp only [scanDir, scanSubs]; decide)
      ["notes.txt"] (by simp only [scanDir, scanSubs]; decide)

/-- C5: a scanned directory that is not rejected contributes exactly its
direct files whose name does not start with `.` and whose lowercased name
is not OS-reserved, as paths relative to the root (first conjunct), and
globally no eligible path ever ends in a hidden or reserved name (second
conjunct). -/
theorem C5_eligible_filter (a : Path → Bool) (isRoot : Bool) (rel : Path)
    (es : List Entry) :
    (promptOf isRoot (dirNamesOf es) (fileNamesOf es) = none ∨ a rel = true →
      (scanDir a isRoot rel es).elig =
        ((fileNamesOf es).filter fileAllowed).map (fun f => rel ++ [f]) ++
          (scanSubs a rel es).elig) ∧
    (∀ f ∈ (scanDir a isRoot rel es).elig,
      f ≠ [] ∧ strStartsWithDot (lastSeg f) = false ∧
        reservedNames.contains (strLower (lastSeg f)) = false) := by
  constructor
  · intro h
    exact (scanDir_not_rejected a isRoot rel es h).1
  · intro f hf
    obtain ⟨t, rfl, ht, hall⟩ := (scanInv es a isRoot rel).1 f hf
    rw [fileAllowed, Bool.and_eq_true, Bool.not_eq_true',
      Bool.not_eq_true'] at hall
    exact ⟨by simp [ht], hall.1, hall.2⟩

/-- C1 (amended): when dry-run is enabled, `apply_changes` itself leaves
the filesystem untouched and asks nothing — its final state is exactly the
initial one — every phase action is logged once as an intended action
prefixed `[DRY RUN] Would ` (and nothing else but the banner and
completion lines is emitted, in particular no change-log append), and per
`execute_or_log` call the dry-run line is exactly the real run's log
message with the prefix prepended.  The claim's further assertion that the
whole run leaves the filesystem byte-for-byte unchanged is false:
`create_change_log` still writes the change-log file (see the
counterexample). -/
theorem C1_dry_run_apply (ctx : ApplyCtx) (dir : String)
    (org : NewStructure) (lf : List Path) (fs0 : FS)
    (h : ctx.dryRun = true) :
    (apply_changes ctx dir org lf fs0).1 = ⟨fs0, 0⟩ ∧
    (∃ δ, (apply_changes ctx dir org lf fs0).2 =
        hdEvents ctx ++ δ ++ tlEvents ctx ∧ DryEvents δ) ∧
    (∀ (st : St) (ops : List FSOp) (msg : String),
      (execOrLog ctx st ops msg).2.1 =
        [.actionLog ("[DRY RUN] Would " ++ msg)] ∧
      (execOrLog ctx st ops msg).1 = st ∧
      ∀ (ctx' : ApplyCtx), ctx'.dryRun = false →
        (execOrLog ctx' st ops msg).2.1 = [.actionLog msg]) := by
  obtain ⟨δ, hφ, hdry⟩ := applyPhases_dry h dir org lf ⟨fs0, 0⟩
  have happ := apply_changes_ok hφ
  refine ⟨?_, ⟨δ, ?_, hdry⟩, ?_⟩
  · rw [happ]
  · rw [happ]
  · intro st ops msg
    refine ⟨?_, ?_, ?_⟩
    · rw [execOrLog_dry h]
    · rw [execOrLog_dry h]
    · intro ctx' h'
      rw [execOrLog_real h']

/-- Witness for C1: a concrete dry run of `apply_changes` returns the
initial state unchanged. -/
theorem C1_dry_run_apply_witness :
    (apply_changes ⟨true, fun _ => none, fun _ => false⟩ "/r"
      ⟨["text"], [⟨["notes.txt"], ["text", "notes.txt"]⟩]⟩ []
      [⟨["notes.txt"], false, "x"⟩]).1 = ⟨[⟨["notes.txt"], false, "x"⟩], 0⟩ :=
  (C1_dry_run_apply ⟨true, fun _ => none, fun _ => false⟩ "/r"
    ⟨["text"], [⟨["notes.txt"], ["text", "notes.txt"]⟩]⟩ []
    [⟨["notes.txt"], false, "x"⟩] rfl).1

/-- C1 counterexample: the claim's "the run leaves the filesystem
byte-for-byte unchanged: no files are created" is false — with dry-run
enabled, the confirmed run (`create_change_log` followed by
`apply_changes`) still creates `reorganization_change_log.txt`, so an
initially empty root is nonempty afterwards. -/
theorem C1_dry_run_counterexample :
    (confirmedRun ⟨true, fun _ => none, fun _ => false⟩ "/r"
      ⟨["text"], [⟨["notes.txt"], ["text", "notes.txt"]⟩]⟩ [] []).1.fs ≠
      ([] : FS) := by
  decide

/-- Witness for C5: a hidden file and a reserved name (case-insensitively)
are dropped, the ordinary file is kept, and the kept path ends in an
allowed name. -/
theorem C5_eligible_filter_witness :
    (scanDir (fun _ => true) true []
        [Entry.file ".hidden", Entry.file "Thumbs.DB",
          Entry.file "notes.txt"]).elig = [["notes.txt"]] ∧
    strStartsWithDot (lastSeg [("notes.txt" : String)]) = false := by
  constructor
  · have h := (C5_eligible_filter (fun _ => true) true []
      [Entry.file ".hidden", Entry.file "Thumbs.DB",
        Entry.file "notes.txt"]).1 (Or.inr rfl)
    rw [h]
    simp only [scanSubs]
    decide
  · exact ((C5_eligible_filter (fun _ => true) true []
      [Entry.file ".hidden", Entry.file "Thumbs.DB",
        Entry.file "notes.txt"]).2 ["notes.txt"]
      (by simp only [scanDir, scanSubs]; decide)).2.1

/-- C6: when a phase-4 move fails in a non-dry run, the error is appended
to the change log and the operator is asked whether to skip; a
non-affirmative answer makes `phase4` return immediately — its result is
exactly the error-handling events with the `true` (returned) flag, so the
remaining pairs are never attempted — and then `apply_changes` ends with
only the phase 1–4 events (phase 5 never runs and no completion line is
logged); an affirmative answer continues with the remaining pairs, and if
phase 4 finishes without returning, phase 5 still runs and its events and
the completion line are appended. -/
theorem C6_phase4_error_flow (ctx : ApplyCtx) (dir : String)
    (org : NewStructure) (lf : List Path) :
    (∀ (m : FileMove) (rest : List FileMove) (st : St) (fs' : FS)
        (e : String),
      ctx.dryRun = false →
      runOps ctx.oracle st.fs
        [.makeDirs m.new.dropLast, .move m.original m.new] =
        (fs', some e) →
      ctx.answers st.nAsk = false →
      phase4 ctx dir (m :: rest) st =
        (⟨fsAppendFile fs' [changeLogName]
            ("\n" ++ ("Error Log:\n" ++ moveErrMsg dir m e) ++ "\n"),
          st.nAsk + 1⟩,
         [.actionLog (moveMsg dir m), .errorLog (moveErrMsg dir m e),
          .changeLogAppend ("Error Log:\n" ++ moveErrMsg dir m e),
          .ask skipQuestion false,
          .info "User chose to exit. Stopping the process."],
         true)) ∧
    (∀ (m : FileMove) (rest : List FileMove) (st st' : St) (fs' : FS)
        (e : String),
      ctx.dryRun = false →
      runOps ctx.oracle st.fs
        [.makeDirs m.new.dropLast, .move m.original m.new] =
        (fs', some e) →
      ctx.answers st.nAsk = true →
      st' = ⟨fsAppendFile fs' [changeLogName]
        ("\n" ++ ("Error Log:\n" ++ moveErrMsg dir m e) ++ "\n"),
        st.nAsk + 1⟩ →
      phase4 ctx dir (m :: rest) st =
        ((phase4 ctx dir rest st').1,
         [.actionLog (moveMsg dir m), .errorLog (moveErrMsg dir m e),
          .changeLogAppend ("Error Log:\n" ++ moveErrMsg dir m e),
          .ask skipQuestion true] ++ (phase4 ctx dir rest st').2.1,
         (phase4 ctx dir rest st').2.2)) ∧
    (∀ (fs0 : FS) (st1 st2 st3 st4 : St) (δ1 δ2 δ3 δ4 : List Event),
      phase1 ctx dir ⟨fs0, 0⟩ = (st1, δ1, none) →
      phase2 ctx dir lf st1 = (st2, δ2, none) →
      phase3 ctx dir org.new_folders st2 = (st3, δ3, none) →
      phase4 ctx dir org.FilePath st3 = (st4, δ4, true) →
      apply_changes ctx dir org lf fs0 =
        (st4, hdEvents ctx ++ (δ1 ++ δ2 ++ δ3 ++ δ4))) ∧
    (∀ (fs0 : FS) (st1 st2 st3 st4 st5 : St)
        (δ1 δ2 δ3 δ4 δ5 : List Event),
      phase1 ctx dir ⟨fs0, 0⟩ = (st1, δ1, none) →
      phase2 ctx dir lf st1 = (st2, δ2, none) →
      phase3 ctx dir org.new_folders st2 = (st3, δ3, none) →
      phase4 ctx dir org.FilePath st3 = (st4, δ4, false) →
      phase5 ctx dir org lf st4 = (st5, δ5, none) →
      apply_changes ctx dir org lf fs0 =
        (st5, hdEvents ctx ++ (δ1 ++ δ2 ++ δ3 ++ δ4 ++ δ5) ++
          tlEvents ctx)) := by
  refine ⟨?_, ?_, ?_, ?_⟩
  · intro m rest st fs' e hdry hfail hans
    exact phase4_fail_abort hdry hfail hans
  · intro m rest st st' fs' e hdry hfail hans hst
    exact phase4_fail_skip hdry hfail hans hst
  · intro fs0 st1 st2 st3 st4 δ1 δ2 δ3 δ4 h1 h2 h3 h4
    have hφ := applyPhases_eq h1 h2 h3 h4
    rw [if_pos rfl] at hφ
    exact apply_changes_early hφ
  · intro fs0 st1 st2 st3 st4 st5 δ1 δ2 δ3 δ4 δ5 h1 h2 h3 h4 h5
    have hφ := applyPhases_eq h1 h2 h3 h4
    rw [if_neg (by simp)] at hφ
    rw [h5] at hφ
    exact apply_changes_ok hφ

/-- Witness for C6: a permission error on the single file move with a
non-affirmative skip answer returns early (the flag is `true`) and the
whole apply run emits exactly the eight phase 1–4 events; with an
affirmative answer phase 5 still runs and the run ends with the completion
line. -/
theorem C6_phase4_error_flow_witness :
    (phase4 ⟨false, fun op => match op with
        | .move ["notes.txt"] _ => some "perm"
        | _ => none, fun _ => false⟩ "/r"
      [⟨["notes.txt"], ["text", "notes.txt"]⟩]
      ⟨[⟨["notes.txt"], false, "x"⟩], 0⟩).2.2 = true ∧
    (apply_changes ⟨false, fun op => match op with
        | .move ["notes.txt"] _ => some "perm"
        | _ => none, fun _ => false⟩ "/r"
      ⟨["text"], [⟨["notes.txt"], ["text", "notes.txt"]⟩]⟩ []
      [⟨["notes.txt"], false, "x"⟩]).2.length = 8 ∧
    (apply_changes ⟨false, fun op => match op with
        | .move ["notes.txt"] _ => some "perm"
        | _ => none, fun _ => true⟩ "/r"
      ⟨["text"], [⟨["notes.txt"], ["text", "notes.txt"]⟩]⟩ []
      [⟨["notes.txt"], false, "x"⟩, ⟨["old"], true, ""⟩]).2.getLast? =
      some (.info "All changes applied successfully.") := by
  refine ⟨?_, ?_, ?_⟩
  · rw [(C6_phase4_error_flow ⟨false, fun op => match op with
        | .move ["notes.txt"] _ => some "perm"
        | _ => none, fun _ => false⟩ "/r"
      ⟨["text"], [⟨["notes.txt"], ["text", "notes.txt"]⟩]⟩ []).1
      ⟨["notes.txt"], ["text", "notes.txt"]⟩ []
      ⟨[⟨["notes.txt"], false, "x"⟩], 0⟩ _ "perm" rfl rfl rfl]
  · rw [(C6_phase4_error_flow ⟨false, fun op => match op with
        | .move ["notes.txt"] _ => some "perm"
        | _ => none, fun _ => false⟩ "/r"
      ⟨["text"], [⟨["notes.txt"], ["text", "notes.txt"]⟩]⟩ []).2.2.1
      [⟨["notes.txt"], false, "x"⟩] _ _ _ _ _ _ _ _ rfl rfl rfl rfl]
    decide
  · rw [(C6_phase4_error_flow ⟨false, fun op => match op with
        | .move ["notes.txt"] _ => some "perm"
        | _ => none, fun _ => true⟩ "/r"
      ⟨["text"], [⟨["notes.txt"], ["text", "notes.txt"]⟩]⟩ []).2.2.2
      [⟨["notes.txt"], false, "x"⟩, ⟨["old"], true, ""⟩]
      _ _ _ _ _ _ _ _ _ _ rfl rfl rfl rfl rfl]
    decide

/-- C2 (amended): a per-file move failure in phase 4 is written to the
persistent change log before the operator is asked (in every phase-4
trace, at each point the prompts shown never outnumber the appends
performed), but the unexpected OS-level error caught at the top level of
`apply_changes` is written to the change log only after the operator
answers: in both the abort and the continue branch the `ask` event comes
first and the `changeLogAppend` of that error follows it. -/
theorem C2_error_log_order (ctx : ApplyCtx) (dir : String)
    (org : NewStructure) (lf : List Path) (fs0 : FS) :
    (∀ (ms : List FileMove) (st : St),
      LogBeforeAsk (phase4 ctx dir ms st).2.1) ∧
    (∀ (st : St) (δ : List Event) (e : String) (b : Bool),
      applyPhases ctx dir org lf ⟨fs0, 0⟩ = (st, δ, some e, b) →
      (ctx.answers st.nAsk = false →
        apply_changes ctx dir org lf fs0 =
          (⟨fsAppendFile st.fs [changeLogName]
              ("\n" ++ ("Error Log:\n" ++ ("Error applying changes: " ++ e))
                ++ "\n"), st.nAsk + 1⟩,
           hdEvents ctx ++ δ ++
             [.errorLog ("Error applying changes: " ++ e),
              .ask continueQuestion false,
              .info "User chose to exit. Stopping the process.",
              .changeLogAppend
                ("Error Log:\n" ++ ("Error applying changes: " ++ e))])) ∧
      (ctx.answers st.nAsk = true →
        apply_changes ctx dir org lf fs0 =
          (⟨fsAppendFile st.fs [changeLogName]
              ("\n" ++ ("Error Log:\n" ++ ("Error applying changes: " ++ e)
                ++ "\nUser chose to continue.") ++ "\n"), st.nAsk + 1⟩,
           hdEvents ctx ++ δ ++
             [.errorLog ("Error applying changes: " ++ e),
              .ask continueQuestion true,
              .changeLogAppend ("Error Log:\n" ++
                ("Error applying changes: " ++ e) ++
                "\nUser chose to continue.")] ++ tlEvents ctx))) := by
  refine ⟨phase4_logBeforeAsk ctx dir, ?_⟩
  intro st δ e b h
  exact ⟨fun hans => apply_changes_outer_abort h hans,
    fun hans => apply_changes_outer_continue h hans⟩

/-- C2 counterexample: the claim as stated is false for the top-level
handler — when creating the deprecated folder fails, the operator prompt
is shown before anything is appended to the change log, so after the first
four events the trace has one prompt but zero appends. -/
theorem C2_error_log_order_counterexample :
    ¬ LogBeforeAsk (apply_changes ⟨false,
      fun op => match op with
        | .makeDirs ["deprecated"] => some "boom"
        | _ => none,
      fun _ => false⟩ "/r"
      ⟨["text"], [⟨["notes.txt"], ["text", "notes.txt"]⟩]⟩ [] []).2 := by
  intro h
  have h4 := h 4
  revert h4
  decide

/-- Witness for C2: the concrete failing run ends with the change-log
append of the top-level error (after the prompt). -/
theorem C2_error_log_order_witness :
    (apply_changes ⟨false,
      fun op => match op with
        | .makeDirs ["deprecated"] => some "boom"
        | _ => none,
      fun _ => false⟩ "/r"
      ⟨["text"], [⟨["notes.txt"], ["text", "notes.txt"]⟩]⟩ [] []).2.getLast? =
      some (.changeLogAppend
        ("Error Log:\n" ++ ("Error applying changes: " ++ "boom"))) := by
  rw [((C2_error_log_order ⟨false,
      fun op => match op with
        | .makeDirs ["deprecated"] => some "boom"
        | _ => none,
      fun _ => false⟩ "/r"
      ⟨["text"], [⟨["notes.txt"], ["text", "notes.txt"]⟩]⟩ [] []).2
      _ _ "boom" false rfl).1 rfl]
  decide

/-- C7: in a non-dry run without move failures, phase 5 archives exactly
the current top-level names that are directories, are not in
`plan.new_folders`, are not among the excluded folders' base names, and
are not the deprecated container (`phase5Names`): it performs one move per
such name into `root/deprecated` under the name itself, logging exactly
those moves and asking nothing (first conjunct); every node whose
top-level name does not qualify — in particular top-level regular files
and the deprecated container — is left in place (second conjunct); and
every node under a qualifying name ends up under
`deprecated/<base name>` (third conjunct). -/
theorem C7_phase5_archival (ctx : ApplyCtx) (dir : String)
    (org : NewStructure) (lf : List Path) (st : St)
    (hdry : ctx.dryRun = false)
    (hok : ∀ (s d : Path), ctx.oracle (.move s d) = none)
    (hnd : (fsListdir st.fs).Nodup) :
    phase5 ctx dir org lf st =
      (⟨moveFold st.fs (phase5Names org lf st.fs), st.nAsk⟩,
       (phase5Names org lf st.fs).map (phase5MoveEvent dir), none) ∧
    (∀ node ∈ st.fs, ∀ (m : String) (rest' : Path),
      node.path = m :: rest' → m ∉ phase5Names org lf st.fs →
      node ∈ (phase5 ctx dir org lf st).1.fs) ∧
    ((∀ x, fsIsDir st.fs ["deprecated", x] = false) →
      ∀ node ∈ st.fs, ∀ (m : String) (rest' : Path),
      node.path = m :: rest' → m ∈ phase5Names org lf st.fs →
      (⟨"deprecated" :: m :: rest', node.isDir, node.content⟩ : Node) ∈
        (phase5 ctx dir org lf st).1.fs) := by
  have hnodup : ((fsListdir st.fs).filter (fun n =>
      !(org.new_folders.contains n) &&
        !((lf.map lastSeg).contains n))).Nodup := hnd.filter _
  have heq : phase5 ctx dir org lf st =
      (⟨moveFold st.fs (phase5Names org lf st.fs), st.nAsk⟩,
       (phase5Names org lf st.fs).map (phase5MoveEvent dir), none) := by
    unfold phase5 phase5Names
    exact phase5loop_spec hdry hok dir _ st hnodup
  have hdepnot : "deprecated" ∉ phase5Names org lf st.fs := by
    intro hmem
    unfold phase5Names at hmem
    rw [List.mem_filter] at hmem
    simp at hmem
  refine ⟨heq, ?_, ?_⟩
  · intro node hnode m rest' hpath hnotin
    rw [heq]
    exact moveFold_preserve _ _ node m rest' hnode hpath hnotin
  · intro hnodep node hnode m rest' hpath hin
    rw [heq]
    refine moveFold_reloc _ _ node m rest' ?_ hdepnot ?_ hnode hpath hin
    · unfold phase5Names
      exact hnodup.filter _
    · intro x _
      exact hnodep x

/-- Witness for C7: with top-level entries `old/` (a stale directory),
`deprecated/`, the planned folder `text/` and the file `notes.txt`,
phase 5 logs exactly one archival move (of `old`), and the relocated
directory node appears at `deprecated/old` while the file stays put. -/
theorem C7_phase5_archival_witness :
    (phase5 ⟨false, fun _ => none, fun _ => false⟩ "/r" ⟨["text"], []⟩ []
      ⟨[⟨["old"], true, ""⟩, ⟨["deprecated"], true, ""⟩, ⟨["text"], true, ""⟩,
        ⟨["notes.txt"], false, "x"⟩], 0⟩).2.1 =
      [phase5MoveEvent "/r" "old"] ∧
    (⟨["deprecated", "old"], true, ""⟩ : Node) ∈
      (phase5 ⟨false, fun _ => none, fun _ => false⟩ "/r" ⟨["text"], []⟩ []
        ⟨[⟨["old"], true, ""⟩, ⟨["deprecated"], true, ""⟩,
          ⟨["text"], true, ""⟩, ⟨["notes.txt"], false, "x"⟩], 0⟩).1.fs ∧
    (⟨["notes.txt"], false, "x"⟩ : Node) ∈
      (phase5 ⟨false, fun _ => none, fun _ => false⟩ "/r" ⟨["text"], []⟩ []
        ⟨[⟨["old"], true, ""⟩, ⟨["deprecated"], true, ""⟩,
          ⟨["text"], true, ""⟩, ⟨["notes.txt"], false, "x"⟩], 0⟩).1.fs := by
  refine ⟨?_, ?_, ?_⟩
  · rw [(C7_phase5_archival ⟨false, fun _ => none, fun _ => false⟩ "/r"
      ⟨["text"], []⟩ []
      ⟨[⟨["old"], true, ""⟩, ⟨["deprecated"], true, ""⟩, ⟨["text"], true, ""⟩,
        ⟨["notes.txt"], false, "x"⟩], 0⟩ rfl (fun _ _ => rfl) (by decide)).1]
    decide
  · exact (C7_phase5_archival ⟨false, fun _ => none, fun _ => false⟩ "/r"
      ⟨["text"], []⟩ []
      ⟨[⟨["old"], true, ""⟩, ⟨["deprecated"], true, ""⟩, ⟨["text"], true, ""⟩,
        ⟨["notes.txt"], false, "x"⟩], 0⟩ rfl (fun _ _ => rfl)
      (by decide)).2.2 (fun x => by simp [fsIsDir])
      ⟨["old"], true, ""⟩ (by decide) "old" [] rfl (by decide)
  · exact (C7_phase5_archival ⟨false, fun _ => none, fun _ => false⟩ "/r"
      ⟨["text"], []⟩ []
      ⟨[⟨["old"], true, ""⟩, ⟨["deprecated"], true, ""⟩, ⟨["text"], true, ""⟩,
        ⟨["notes.txt"], false, "x"⟩], 0⟩ rfl (fun _ _ => rfl)
      (by decide)).2.1
      ⟨["notes.txt"], false, "x"⟩ (by decide) "notes.txt" [] rfl (by decide)

end FileOrg
